import Mathlib

/-!
Verification of the Approval Rendezvous Engine (Replic repository).

Shallow embedding of the engine code:
  approval-gateway/app/whatsapp.py        (parse_whatsapp_command)
  services/approval-gateway/app/imessage.py (parse_imessage_command)
  approval-gateway/app/redis_store.py     (RedisStore)
  approval-gateway/app/rate_limit.py      (TokenBucket, RateLimiter)
  approval-gateway/app/main.py            (endpoints, check_timeouts sweeper)
  services/agent-orchestrator/main.py     (receive_decision, wait handles)

Python strings are modelled as lists of characters, wall-clock time as the
rationals (seconds since the epoch), Redis hashes and key spaces as
association lists, and the asyncio futures of the orchestrator as an
association list from candidate id to an optional resolution value.
-/

namespace Replic

/-! ## Python string helpers -/

/-- ASCII whitespace recognised by Python str.strip and str.split. -/
def isWS (c : Char) : Bool :=
  c == ' ' || c == '\t' || c == '\n' || c == '\r' || c == '\x0b' || c == '\x0c'

/-- Python str.strip: drop leading and trailing whitespace. -/
def pyStrip (l : List Char) : List Char :=
  ((l.dropWhile isWS).reverse.dropWhile isWS).reverse

/-- Python str.lower on ASCII text. -/
def pyLower (l : List Char) : List Char :=
  l.map Char.toLower

/-- Python str.startswith. -/
def pyStartswith : List Char → List Char → Bool
  | _, [] => true
  | [], _ :: _ => false
  | c :: cs, p :: ps => c == p && pyStartswith cs ps

/-- Python membership test c in s on a string. -/
def pyContains : List Char → Char → Bool
  | [], _ => false
  | c :: rest, x => c == x || pyContains rest x

/-- Python str.split(maxsplit=1) with the default whitespace separator:
split off the first whitespace-delimited token; the remainder keeps its
internal and trailing whitespace but loses the separating run. -/
def splitMax1 (l : List Char) : List (List Char) :=
  let l1 := l.dropWhile isWS
  if l1.isEmpty then []
  else
    let tok := l1.takeWhile (fun c => !isWS c)
    let rest := (l1.dropWhile (fun c => !isWS c)).dropWhile isWS
    if rest.isEmpty then [tok] else [tok, rest]

/-! ## Channel command normalizers -/

/-- Canonical parsed command, the dict returned by both channel parsers. -/
structure Command where
  action : String
  candidate_id : List Char
  edited_text : Option (List Char)
deriving DecidableEq, Repr

/-- approval-gateway/app/whatsapp.py, parse_whatsapp_command. -/
def parse_whatsapp_command (text : List Char) : Option Command :=
  let t := pyStrip text
  if pyStartswith (pyLower t) "approve ".data then
    match splitMax1 t with
    | [_, p1] => some ⟨"approved", pyStrip p1, none⟩
    | _ => none
  else if pyStartswith (pyLower t) "skip ".data then
    match splitMax1 t with
    | [_, p1] => some ⟨"rejected", pyStrip p1, none⟩
    | _ => none
  else if pyStartswith (pyLower t) "edit ".data then
    -- rest := text[5:].strip(); requires a colon: "edit cr_123: new text"
    let rest := pyStrip (t.drop 5)
    if pyContains rest ':' then
      let cid := rest.takeWhile (fun c => c != ':')
      let ed := (rest.dropWhile (fun c => c != ':')).drop 1
      -- edited_text.strip() then the 200-character cap (text[:200])
      some ⟨"edited", pyStrip cid, some ((pyStrip ed).take 200)⟩
    else none
  else none

/-- Character class A-Za-z0-9_ of the candidate-id regex groups. -/
def isIdChar (c : Char) : Bool :=
  ('A' ≤ c && c ≤ 'Z') || ('a' ≤ c && c ≤ 'z') || ('0' ≤ c && c ≤ '9') || c == '_'

/-- The regex group cr_[A-Za-z0-9_]+ matched (IGNORECASE) against the whole
remainder of the input, returning the original-case id. -/
def matchCrId : List Char → Option (List Char)
  | c :: r :: u :: rest =>
      if c.toLower == 'c' && r.toLower == 'r' && u == '_'
          && !rest.isEmpty && rest.all isIdChar then
        some (c :: r :: u :: rest)
      else none
  | _ => none

/-- re.match of a pattern kw-then-whitespace-then-id anchored at both ends
(the approve and skip patterns of parse_imessage_command), on input already
stripped by the caller. kw is the lowercase keyword literal. -/
def matchKwId (kw : List Char) (l : List Char) : Option (List Char) :=
  if pyStartswith (pyLower l) kw then
    let after := l.drop kw.length
    if (after.takeWhile isWS).isEmpty then none
    else matchCrId (after.dropWhile isWS)
  else none

/-- re.match of the edit pattern of parse_imessage_command
(edit, whitespace, id group, colon, optional whitespace, DOTALL body group)
on input already stripped by the caller; since the input is stripped, the
greedy whitespace run after the colon never needs to backtrack into the
body group. Returns the id group and the body group. -/
def matchEdit (l : List Char) : Option (List Char × List Char) :=
  if pyStartswith (pyLower l) "edit".data then
    let after := l.drop 4
    if (after.takeWhile isWS).isEmpty then none
    else
      match after.dropWhile isWS with
      | c :: r :: u :: rest =>
        if c.toLower == 'c' && r.toLower == 'r' && u == '_' then
          let idTail := rest.takeWhile isIdChar
          if idTail.isEmpty then none
          else
            match rest.drop idTail.length with
            | ':' :: rest2 =>
                let body := rest2.dropWhile isWS
                if body.isEmpty then none
                else some (c :: r :: u :: idTail, body)
            | _ => none
        else none
      | _ => none
  else none

/-- services/approval-gateway/app/imessage.py, parse_imessage_command. -/
def parse_imessage_command (text : List Char) : Option Command :=
  let t := pyStrip text
  match matchKwId "approve".data t with
  | some cid => some ⟨"approved", cid, none⟩
  | none =>
  match matchKwId "skip".data t with
  | some cid => some ⟨"rejected", cid, none⟩
  | none =>
  match matchEdit t with
  | some (cid, body) => some ⟨"edited", cid, some ((pyStrip body).take 200)⟩
  | none => none

example : parse_whatsapp_command "approve cr_1".data
    = some ⟨"approved", "cr_1".data, none⟩ := by decide
example : parse_whatsapp_command "SKIP cr_2".data
    = some ⟨"rejected", "cr_2".data, none⟩ := by decide
example : parse_whatsapp_command "edit cr_3: hello\nworld".data
    = some ⟨"edited", "cr_3".data, some "hello\nworld".data⟩ := by decide
example : parse_whatsapp_command "banana".data = none := by decide
example : parse_imessage_command "approve cr_1".data
    = some ⟨"approved", "cr_1".data, none⟩ := by decide
example : parse_imessage_command "SKIP cr_2".data
    = some ⟨"rejected", "cr_2".data, none⟩ := by decide
example : parse_imessage_command "edit cr_3: hello\nworld".data
    = some ⟨"edited", "cr_3".data, some "hello\nworld".data⟩ := by decide
example : parse_imessage_command "banana".data = none := by decide
example : parse_imessage_command "approve".data = none := by decide
example : parse_imessage_command "  approve   cr_test  ".data
    = some ⟨"approved", "cr_test".data, none⟩ := by decide

/-! ## Data model (approval-gateway/app/models.py) -/

/-- Wall-clock time, seconds since the epoch. -/
abbrev Time := ℚ

/-- models.py Candidate (the immutable approval request). -/
structure Candidate where
  id : List Char
  brand_id : String
  platform : String
  source_ref : String
  proposed_text : List Char
  persona : String
  context_url : String
  risk_flags : List String
  deadline_sec : ℤ
deriving DecidableEq, Repr

/-- models.py CandidateState (the mutable stored record). -/
structure CandidateState where
  candidate : Candidate
  state : String
  created_at : Time
  prompted_at : Option Time
  decided_at : Option Time
  awaiting_edit : Bool
  decider : Option String
deriving DecidableEq, Repr

/-- models.py Decision (the finalized outcome sent to the core webhook). -/
structure Decision where
  id : List Char
  decision : String
  final_text : Option (List Char)
  decider : String
  latency_ms : ℤ
deriving DecidableEq, Repr

/-- models.py ActivityEntry (denormalized audit snapshot). -/
structure ActivityEntry where
  id : List Char
  brand_id : String
  platform : String
  proposed_text : List Char
  state : String
  created_at : Time
  decided_at : Option Time
  decision : Option String
  final_text : Option (List Char)
  decider : Option String
  latency_ms : Option ℤ
deriving DecidableEq, Repr

/-- Python int() applied to a rational: truncation toward zero. -/
def pyInt (q : ℚ) : ℤ :=
  if 0 ≤ q then q.floor else q.ceil

/-! ## Approval store (approval-gateway/app/redis_store.py)

The Redis key space cr:id:state is modelled as an association list from
candidate id to the stored CandidateState; setex both inserts and
overwrites. Record TTLs only bound storage lifetime and are not relied on
by any claim about the store, so they are not modelled here. -/

/-- Generic association-list read (first matching key wins, as in Redis
there is at most one entry per key in every state we construct). -/
def alistGet {κ α : Type} [DecidableEq κ] : List (κ × α) → κ → Option α
  | [], _ => none
  | (k, v) :: rest, key => if k = key then some v else alistGet rest key

/-- Generic association-list write: overwrite the entry if the key is
present, append a fresh entry otherwise. -/
def alistSet {κ α : Type} [DecidableEq κ] : List (κ × α) → κ → α → List (κ × α)
  | [], key, v => [(key, v)]
  | (k, w) :: rest, key, v =>
      if k = key then (k, v) :: rest else (k, w) :: alistSet rest key v

/-- The cr:id:state key space. -/
abbrev Store := List (List Char × CandidateState)

/-- RedisStore.get_candidate_state. -/
def get_candidate_state (s : Store) (cid : List Char) : Option CandidateState :=
  alistGet s cid

/-- RedisStore.save_candidate_state (setex; the TTL argument is dropped). -/
def save_candidate_state (s : Store) (st : CandidateState) : Store :=
  alistSet s st.candidate.id st

/-- The four terminal state strings tested by RedisStore.update_state. -/
def terminalStates : List String := ["approved", "edited", "rejected", "expired"]

/-- The record written back by RedisStore.update_state: the state is
overwritten, decided_at and decider are stamped on a terminal new state
(decider only when truthy, Python "if decider:"), prompted_at is stamped
on "prompted". -/
def updatedRecord (st : CandidateState) (new_state : String)
    (decider : Option String) (now : Time) : CandidateState :=
  let st1 := { st with state := new_state }
  if new_state ∈ terminalStates then
    { st1 with
        decided_at := some now
        decider := match decider with
                   | some d => if d = "" then st1.decider else some d
                   | none => st1.decider }
  else if new_state = "prompted" then
    { st1 with prompted_at := some now }
  else st1

/-- RedisStore.update_state: load the record (no-op when missing), apply
the field updates, save. -/
def update_state (s : Store) (cid : List Char) (new_state : String)
    (decider : Option String) (now : Time) : Store :=
  match get_candidate_state s cid with
  | none => s
  | some st => save_candidate_state s (updatedRecord st new_state decider now)

/-- RedisStore.is_duplicate: a record exists and is past "new". -/
def is_duplicate (s : Store) (cid : List Char) : Bool :=
  match get_candidate_state s cid with
  | none => false
  | some st => st.state != "new"

/-- RedisStore.get_expired_candidates: every stored record still in
"prompted" whose age meets its deadline. -/
def get_expired_candidates (s : Store) (now : Time) : List CandidateState :=
  (s.map Prod.snd).filter (fun st =>
    st.state == "prompted" && decide (st.candidate.deadline_sec ≤ now - st.created_at))

/-! ## Expiry sweeper (approval-gateway/app/main.py, check_timeouts) -/

/-- The Decision built by one iteration of the check_timeouts for-loop for
one due record (decider system:timeout, truncated millisecond latency). -/
def expiryDecision (st : CandidateState) (now : Time) : Decision :=
  ⟨st.candidate.id, "expired", none, "system:timeout", pyInt ((now - st.created_at) * 1000)⟩

/-- The ActivityEntry built by the same iteration. -/
def expiryActivity (st : CandidateState) (now : Time) : ActivityEntry :=
  ⟨st.candidate.id, st.candidate.brand_id, st.candidate.platform,
   st.candidate.proposed_text, "expired", st.created_at, some now, some "expired",
   none, some "system:timeout", some (pyInt ((now - st.created_at) * 1000))⟩

/-- The body of the check_timeouts for-loop for one due record: mark the
stored record expired via update_state (called with no decider), dispatch
the Decision to the core webhook (collected in a list; send_decision_to_core
swallows its own HTTP errors), and append the ActivityEntry to the brands
activity log. The Decision latency and the entry use the scan snapshot st. -/
def process_expired (s : Store) (st : CandidateState) (now : Time) :
    Store × Decision × (String × ActivityEntry) :=
  let s1 := update_state s st.candidate.id "expired" none now
  (s1, expiryDecision st now, (st.candidate.brand_id, expiryActivity st now))

/-- The check_timeouts for-loop over the due records of one pass. The whole
loop runs inside a single try block, so an exception while processing one
record (modelled by the fails oracle, raising before that records effects)
abandons the remaining records of the pass; the final Bool reports whether
an exception escaped to the surrounding except handler. -/
def sweep_records (now : Time) (fails : CandidateState → Bool) :
    List CandidateState → Store → Store × List Decision × List (String × ActivityEntry) × Bool
  | [], s => (s, [], [], false)
  | st :: rest, s =>
      if fails st then (s, [], [], true)
      else
        let p := process_expired s st now
        let q := sweep_records now fails rest p.1
        (q.1, p.2.1 :: q.2.1, p.2.2 :: q.2.2.1, q.2.2.2)

/-- One pass of the check_timeouts while-loop: scan for due records, then
run the for-loop over them. -/
def check_timeouts_pass (s : Store) (now : Time) (fails : CandidateState → Bool) :
    Store × List Decision × List (String × ActivityEntry) × Bool :=
  sweep_records now fails (get_expired_candidates s now) s

/-- The check_timeouts while-loop, n passes starting at tick k: both the
try branch and the except branch sleep 10 seconds, so pass j runs at time
t0 + 10 j; the exception flag of a pass is caught and discarded and the
loop always continues with the next tick. -/
def check_timeouts_loop (t0 : Time) (fails : ℕ → CandidateState → Bool) :
    ℕ → ℕ → Store → Store × List Decision
  | _, 0, s => (s, [])
  | k, n + 1, s =>
      let p := check_timeouts_pass s (t0 + 10 * k) (fails k)
      let q := check_timeouts_loop t0 fails (k + 1) n p.1
      (q.1, p.2.1 ++ q.2)

/-! ## Rate gate and spacing gate (approval-gateway/app/rate_limit.py)

Bucket and spacing state live in their own Redis key spaces, modelled as
association lists from key string to state; absence of a key is the
uninitialized bucket or the absent (or TTL-expired) spacing mark. -/

/-- The tokens and last_update hash fields of one bucket key. -/
structure BucketState where
  tokens : ℚ
  last_update : Time
deriving DecidableEq, Repr

/-- TokenBucket._get_state: read the two hash fields, initializing an
absent bucket to full capacity at the current time. -/
def bucket_get_state (b : Option BucketState) (capacity : ℚ) (now : Time) : BucketState :=
  match b with
  | some st => st
  | none => ⟨capacity, now⟩

/-- TokenBucket._refill: add elapsed-time tokens, clamped at capacity, and
persist the refreshed state. -/
def bucket_refill (b : Option BucketState) (capacity refill_per_second : ℚ)
    (now : Time) : BucketState :=
  let st := bucket_get_state b capacity now
  ⟨min capacity (st.tokens + (now - st.last_update) * refill_per_second), now⟩

/-- TokenBucket.take: refill, then spend count tokens if available. Both
branches persist the returned state (the failure branch keeps the refilled
state written by _refill). -/
def bucket_take (b : Option BucketState) (capacity refill_per_second : ℚ)
    (now : Time) (count : ℚ) : Bool × BucketState :=
  let st := bucket_refill b capacity refill_per_second now
  if count ≤ st.tokens then (true, ⟨st.tokens - count, now⟩)
  else (false, st)

/-- A sequence of sequential TokenBucket.take(1) calls on one bucket, one
call per clock reading, returning the result and stored state after each
call (the spec-level try_take trace). -/
def take_seq (capacity refill_per_second : ℚ) :
    List Time → Option BucketState → List (Bool × BucketState)
  | [], _ => []
  | t :: rest, b =>
      let r := bucket_take b capacity refill_per_second t 1
      r :: take_seq capacity refill_per_second rest (some r.2)

/-- One spacing key: the stored last-event timestamp and (setex) its expiry
instant, after which Redis reports the key as absent. -/
structure SpacingMark where
  last_event_at : Time
  expires_at : Time
deriving DecidableEq, Repr

/-- Redis GET on a spacing key: the value while the TTL has not elapsed. -/
def spacingRead (m : Option SpacingMark) (now : Time) : Option Time :=
  match m with
  | some mk => if now < mk.expires_at then some mk.last_event_at else none
  | none => none

/-- RateLimiter.enforce_spacing: too-soon events are refused without
touching the mark; otherwise the current time is recorded with a TTL of
twice the minimum spacing. -/
def enforce_spacing (m : Option SpacingMark) (min_spacing_sec : ℚ)
    (now : Time) : Bool × Option SpacingMark :=
  match spacingRead m now with
  | some last =>
      if now - last < min_spacing_sec then (false, m)
      else (true, some ⟨now, now + min_spacing_sec * 2⟩)
  | none => (true, some ⟨now, now + min_spacing_sec * 2⟩)

/-! ## Submission endpoint (approval-gateway/app/main.py, receive_candidate) -/

/-- The bucket and spacing key spaces plus the candidate store, the Redis
state visible to the gateway endpoints. -/
structure GatewayState where
  store : Store
  buckets : List (String × BucketState)
  spacing : List (String × SpacingMark)
deriving DecidableEq, Repr

/-- RateLimiter.can_send_wa_prompt / can_send_imsg_prompt: take one token
from the bucket at the channel-and-brand key (keyPrefix is "wa:prompt:" or
"imsg:prompt:"), converting the per-minute refill rate to per-second. -/
def can_send_prompt (buckets : List (String × BucketState)) (keyPre : String)
    (brand_id : String) (capacity refill_per_min : ℚ) (now : Time) :
    Bool × List (String × BucketState) :=
  let key := keyPre ++ brand_id
  let r := bucket_take (alistGet buckets key) capacity (refill_per_min / 60) now 1
  (r.1, alistSet buckets key r.2)

/-- RateLimiter.enforce_spacing at its Redis key spacing:key. -/
def enforce_spacing_at (spacing : List (String × SpacingMark)) (key : String)
    (min_spacing_sec : ℚ) (now : Time) : Bool × List (String × SpacingMark) :=
  let r := enforce_spacing (alistGet spacing ("spacing:" ++ key)) min_spacing_sec now
  (r.1, match r.2 with
        | some mk => alistSet spacing ("spacing:" ++ key) mk
        | none => spacing)

/-- The environment-sourced limits consumed by receive_candidate. -/
structure SubmitConfig where
  wa_bucket_capacity : ℚ
  wa_bucket_refill_per_min : ℚ
  imsg_bucket_capacity : ℚ
  imsg_bucket_refill_per_min : ℚ
  min_spacing_sec : ℚ
deriving DecidableEq, Repr

/-- The JSON body of the submission response (channels is empty on the
duplicate and rate_limited branches, whose bodies omit the key). -/
structure SubmitResult where
  status : String
  candidate_id : List Char
  channels : List String
deriving DecidableEq, Repr

/-- POST /candidate (receive_candidate), after a valid bearer secret:
duplicate check, initial state=new record, rate buckets, spacing gates
(short-circuited, so a refused bucket never touches the spacing mark),
prompt fan-out, and the state=prompted transition when any channel went
out. The delivery half is abstracted: wa_target / imsg_target say whether
a WhatsApp / iMessage recipient is resolvable (owner field or env
fallback, client configured), and wa_send_ok / imsg_send_ok whether the
corresponding network send returns without raising. -/
def receive_candidate (g : GatewayState) (c : Candidate) (cfg : SubmitConfig)
    (now : Time) (wa_target imsg_target wa_send_ok imsg_send_ok : Bool) :
    SubmitResult × GatewayState :=
  if is_duplicate g.store c.id then
    (⟨"duplicate", c.id, []⟩, g)
  else
    let st : CandidateState := ⟨c, "new", now, none, none, false, none⟩
    let store1 := save_candidate_state g.store st
    let wa := can_send_prompt g.buckets "wa:prompt:" c.brand_id
        cfg.wa_bucket_capacity cfg.wa_bucket_refill_per_min now
    let im := can_send_prompt wa.2 "imsg:prompt:" c.brand_id
        cfg.imsg_bucket_capacity cfg.imsg_bucket_refill_per_min now
    let waSp :=
      if wa.1 then enforce_spacing_at g.spacing ("wa:" ++ c.brand_id) cfg.min_spacing_sec now
      else (false, g.spacing)
    let imSp :=
      if im.1 then enforce_spacing_at waSp.2 ("imsg:" ++ c.brand_id) cfg.min_spacing_sec now
      else (false, waSp.2)
    let sent_wa := waSp.1 && wa_target && wa_send_ok
    let sent_im := imSp.1 && imsg_target && imsg_send_ok
    let channels := (if sent_wa then ["whatsapp"] else [])
        ++ (if sent_im then ["imessage"] else [])
    if channels.isEmpty then
      (⟨"rate_limited", c.id, []⟩, ⟨store1, im.2, imSp.2⟩)
    else
      (⟨"prompted", c.id, channels⟩,
       ⟨update_state store1 c.id "prompted" none now, im.2, imSp.2⟩)

/-! ## Inbound channel webhooks (approval-gateway/app/main.py) -/

/-- The observable outcome of one webhook invocation: the response body
fields, the store afterwards, the Decisions handed to
send_decision_to_core, and the (brand, entry) pairs handed to
log_activity. -/
structure WebhookResult where
  status : String
  reason : Option String
  decision : Option String
  store : Store
  dispatched : List Decision
  activities : List (String × ActivityEntry)
deriving DecidableEq, Repr

/-- The shared decision-processing tail of both webhooks: update the state
with the human decider, compute the latency, pick the final text
(edited text for edits, the proposal for approvals, nothing for
rejections), dispatch the Decision and append the ActivityEntry. -/
def process_command (s : Store) (cmd : Command) (st : CandidateState)
    (decider : String) (now : Time) : WebhookResult :=
  let s1 := update_state s cmd.candidate_id cmd.action (some decider) now
  let latency := pyInt ((now - st.created_at) * 1000)
  let ft0 := if cmd.action = "edited" then cmd.edited_text
             else some st.candidate.proposed_text
  let ft := if cmd.action = "rejected" then none else ft0
  let d : Decision := ⟨cmd.candidate_id, cmd.action, ft, decider, latency⟩
  let a : ActivityEntry := ⟨cmd.candidate_id, st.candidate.brand_id,
      st.candidate.platform, st.candidate.proposed_text, cmd.action,
      st.created_at, some now, some cmd.action, ft, some decider, some latency⟩
  ⟨"processed", none, some cmd.action, s1, [d], [(st.candidate.brand_id, a)]⟩

/-- POST /webhooks/whatsapp (whatsapp_webhook) after signature handling:
parse the body, reject unknown candidates and candidates past prompting
with status error, otherwise process the decision. -/
def whatsapp_webhook (s : Store) (body : List Char) (from_number : String)
    (now : Time) : WebhookResult :=
  match parse_whatsapp_command (pyStrip body) with
  | none => ⟨"ignored", some "Invalid command format", none, s, [], []⟩
  | some cmd =>
    match get_candidate_state s cmd.candidate_id with
    | none => ⟨"error", some "Candidate not found", none, s, [], []⟩
    | some st =>
      if st.state ≠ "new" ∧ st.state ≠ "prompted" then
        ⟨"error", some ("Candidate already " ++ st.state), none, s, [], []⟩
      else
        process_command s cmd st from_number now

/-- The approval-command branch of POST /webhooks/imessage
(imessage_webhook): none means the request fell through to the post and
AI-chat handling further down the handler, which never touches approval
records (an unparsed message, or a parsed command whose candidate id has
no record). -/
def imessage_webhook_approval (s : Store) (message_text : List Char)
    (from_user : String) (now : Time) : Option WebhookResult :=
  match parse_imessage_command (pyStrip message_text) with
  | none => none
  | some cmd =>
    match get_candidate_state s cmd.candidate_id with
    | none => none
    | some st =>
      if st.state ≠ "new" ∧ st.state ≠ "prompted" then
        some ⟨"error", some ("Candidate already " ++ st.state), none, s, [], []⟩
      else
        some (process_command s cmd st ("imessage:" ++ from_user) now)

/-! ## Rendezvous coordinator (services/agent-orchestrator/main.py)

PENDING_DECISIONS maps candidate id to an asyncio future: an absent key is
an unknown id, a key holding none is a registered unresolved future, a key
holding some d is a future resolved with d (future.done()). -/

/-- The in-process wait-handle map. -/
abbrev Pending := List (List Char × Option Decision)

/-- POST /decisions (receive_decision) after signature handling: resolve
the future if present and not yet done, otherwise acknowledge with
status ignored and change nothing. -/
def receive_decision (p : Pending) (d : Decision) : String × Pending :=
  match alistGet p d.id with
  | some none => ("ok", alistSet p d.id (some d))
  | some (some _) => ("ignored", p)
  | none => ("ignored", p)

/-- What the node_wait_for_decisions waiter blocked on one handle observes:
the resolution value once the future is resolved; on a wait_for timeout of
an unresolved future, a locally synthesized expired Decision; a missing
future raises (none). -/
def wait_observe (p : Pending) (cid : List Char) (timed_out : Bool) :
    Option Decision :=
  match alistGet p cid with
  | some (some d) => some d
  | some none =>
      if timed_out then some ⟨cid, "expired", none, "system:timeout", 0⟩ else none
  | none => none

/-! ## Association-list lemmas -/

theorem alistGet_alistSet_self {κ α : Type} [DecidableEq κ] (l : List (κ × α)) (k : κ) (v : α) :
    alistGet (alistSet l k v) k = some v := by
  induction l with
  | nil => simp [alistGet, alistSet]
  | cons p rest ih =>
      obtain ⟨k1, v1⟩ := p
      by_cases h : k1 = k
      · simp [alistSet, alistGet, h]
      · simp [alistSet, alistGet, h, ih]

theorem alistGet_alistSet_ne {κ α : Type} [DecidableEq κ] (l : List (κ × α)) (k k' : κ) (v : α)
    (h : k' ≠ k) : alistGet (alistSet l k v) k' = alistGet l k' := by
  induction l with
  | nil => simp [alistGet, alistSet, Ne.symm h]
  | cons p rest ih =>
      obtain ⟨k1, v1⟩ := p
      by_cases h1 : k1 = k
      · subst h1
        simp [alistSet, alistGet, Ne.symm h]
      · simp only [alistSet, if_neg h1]
        by_cases h2 : k1 = k'
        · simp [alistGet, h2]
        · simp [alistGet, h2, ih]

theorem alistGet_mem {κ α : Type} [DecidableEq κ] (l : List (κ × α)) (k : κ) (v : α)
    (h : alistGet l k = some v) : (k, v) ∈ l := by
  induction l with
  | nil => simp [alistGet] at h
  | cons p rest ih =>
      obtain ⟨k1, v1⟩ := p
      by_cases h1 : k1 = k
      · subst h1
        simp [alistGet] at h
        simp [h]
      · simp [alistGet, h1] at h
        exact List.mem_cons_of_mem _ (ih h)

theorem alistGet_of_mem_nodup {κ α : Type} [DecidableEq κ] (l : List (κ × α)) (k : κ) (v : α)
    (hnd : (l.map Prod.fst).Nodup) (h : (k, v) ∈ l) : alistGet l k = some v := by
  induction l with
  | nil => simp at h
  | cons p rest ih =>
      obtain ⟨k1, v1⟩ := p
      simp only [List.map_cons, List.nodup_cons] at hnd
      rcases List.mem_cons.mp h with h2 | h2
      · cases h2
        simp [alistGet]
      · by_cases h1 : k1 = k
        · exact absurd (List.mem_map_of_mem Prod.fst h2) (h1 ▸ hnd.1)
        · simp only [alistGet, if_neg h1]
          exact ih hnd.2 h2

theorem mem_alistSet {κ α : Type} [DecidableEq κ] (l : List (κ × α)) (k : κ) (v : α)
    (p : κ × α) (h : p ∈ alistSet l k v) : p = (k, v) ∨ p ∈ l := by
  induction l with
  | nil => simpa [alistSet] using h
  | cons q rest ih =>
      obtain ⟨k1, v1⟩ := q
      by_cases h1 : k1 = k
      · subst h1
        simp only [alistSet, if_pos rfl] at h
        rcases List.mem_cons.mp h with h2 | h2
        · exact Or.inl h2
        · exact Or.inr (List.mem_cons_of_mem _ h2)
      · simp only [alistSet, if_neg h1] at h
        rcases List.mem_cons.mp h with h2 | h2
        · exact Or.inr (by rw [h2]; exact List.mem_cons_self _ _)
        · rcases ih h2 with h3 | h3
          · exact Or.inl h3
          · exact Or.inr (List.mem_cons_of_mem _ h3)

theorem alistSet_map_fst {κ α : Type} [DecidableEq κ] (l : List (κ × α)) (k : κ) (v : α)
    (h : k ∈ l.map Prod.fst) : (alistSet l k v).map Prod.fst = l.map Prod.fst := by
  induction l with
  | nil => simp at h
  | cons p rest ih =>
      obtain ⟨k1, v1⟩ := p
      by_cases h1 : k1 = k
      · simp [alistSet, h1]
      · simp only [List.map_cons, List.mem_cons] at h
        rcases h with h2 | h2
        · exact absurd h2.symm h1
        · simp [alistSet, h1, ih h2]

/-! ## Store lemmas -/

theorem updatedRecord_candidate (st : CandidateState) (ns : String) (d : Option String)
    (now : Time) : (updatedRecord st ns d now).candidate = st.candidate := by
  unfold updatedRecord
  split
  · rfl
  · split <;> rfl

theorem updatedRecord_state (st : CandidateState) (ns : String) (d : Option String)
    (now : Time) : (updatedRecord st ns d now).state = ns := by
  unfold updatedRecord
  split
  · rfl
  · split <;> rfl

theorem updatedRecord_expired_none (st : CandidateState) (now : Time) :
    updatedRecord st "expired" none now
      = { st with state := "expired", decided_at := some now } := by
  simp [updatedRecord, terminalStates]

theorem update_state_of_get_none (s : Store) (cid : List Char) (ns : String)
    (d : Option String) (now : Time) (h : get_candidate_state s cid = none) :
    update_state s cid ns d now = s := by
  simp [update_state, h]

theorem update_state_of_get_some (s : Store) (cid : List Char) (st : CandidateState)
    (ns : String) (d : Option String) (now : Time)
    (h : get_candidate_state s cid = some st) :
    update_state s cid ns d now = save_candidate_state s (updatedRecord st ns d now) := by
  simp [update_state, h]

theorem get_update_state_self (s : Store) (cid : List Char) (st : CandidateState)
    (ns : String) (d : Option String) (now : Time)
    (h : get_candidate_state s cid = some st) (hid : st.candidate.id = cid) :
    get_candidate_state (update_state s cid ns d now) cid
      = some (updatedRecord st ns d now) := by
  rw [update_state_of_get_some s cid st ns d now h]
  unfold save_candidate_state get_candidate_state
  rw [updatedRecord_candidate, hid]
  exact alistGet_alistSet_self ..

theorem get_update_state_ne (s : Store) (cid cid' : List Char) (st : CandidateState)
    (ns : String) (d : Option String) (now : Time)
    (h : get_candidate_state s cid = some st) (hid : st.candidate.id = cid)
    (hne : cid' ≠ cid) :
    get_candidate_state (update_state s cid ns d now) cid' = get_candidate_state s cid' := by
  rw [update_state_of_get_some s cid st ns d now h]
  unfold save_candidate_state get_candidate_state
  rw [updatedRecord_candidate, hid]
  exact alistGet_alistSet_ne _ _ _ _ hne

/-! ## Concrete fixtures used by counterexamples and witnesses -/

/-- A concrete candidate with the default 900-second deadline. -/
def cand1 : Candidate :=
  ⟨"cr_1".data, "b_acme", "x", "123", "hello".data, "smart", "https://x.test/1", [], 900⟩

/-- A second concrete candidate with a distinct id. -/
def cand2 : Candidate :=
  ⟨"cr_2".data, "b_acme", "x", "456", "yo".data, "smart", "https://x.test/2", [], 900⟩

/-! ## C1 -/

/-- C1 counterexample: a record already in the terminal status "approved"
(decided at time 5 by one decider) is not left unchanged by a further
update_state call: the call overwrites the stored status, decided_at and
decider, refuting the claim that the transition is a no-op on a terminal
record. -/
theorem C1_counterexample :
    (get_candidate_state
        (update_state
          [(cand1.id, ⟨cand1, "approved", 0, none, some 5, false, some "whatsapp:+1555"⟩)]
          cand1.id "rejected" (some "whatsapp:+1777") 9)
        cand1.id).map CandidateState.state = some "rejected" ∧
    (get_candidate_state
        (update_state
          [(cand1.id, ⟨cand1, "approved", 0, none, some 5, false, some "whatsapp:+1555"⟩)]
          cand1.id "rejected" (some "whatsapp:+1777") 9)
        cand1.id).map CandidateState.decided_at = some (some 9) ∧
    (get_candidate_state
        (update_state
          [(cand1.id, ⟨cand1, "approved", 0, none, some 5, false, some "whatsapp:+1555"⟩)]
          cand1.id "rejected" (some "whatsapp:+1777") 9)
        cand1.id).map CandidateState.decider = some (some "whatsapp:+1777") := by
  refine ⟨?_, ?_, ?_⟩ <;> rfl

/-- C1 (amended): the stores transition operation update_state is a no-op
only when no record exists for the id; when a record exists, even one
whose stored status is terminal, update_state overwrites the stored status
with the requested new status (and, for a terminal new status, restamps
decided_at and decider). The terminal-state guard lives in the webhook
handlers, not in the store. -/
theorem C1_update_state_not_guarded :
    (∀ (s : Store) (cid : List Char) (ns : String) (d : Option String) (now : Time),
        get_candidate_state s cid = none → update_state s cid ns d now = s) ∧
    (∀ (s : Store) (cid : List Char) (st : CandidateState) (ns : String)
        (d : Option String) (now : Time),
        get_candidate_state s cid = some st → st.candidate.id = cid →
        (get_candidate_state (update_state s cid ns d now) cid).map CandidateState.state
          = some ns) := by
  constructor
  · exact fun s cid ns d now h => update_state_of_get_none s cid ns d now h
  · intro s cid st ns d now h hid
    rw [get_update_state_self s cid st ns d now h hid]
    simp [updatedRecord_state]

/-- C1 witness: the amended theorem applied at concrete inputs, a missing
record and a terminal record. -/
theorem C1_witness :
    update_state [] "cr_9".data "approved" none 0 = [] ∧
    (get_candidate_state
        (update_state [(cand1.id, ⟨cand1, "expired", 0, none, some 5, false, none⟩)]
          cand1.id "approved" none 9)
        cand1.id).map CandidateState.state = some "approved" :=
  ⟨C1_update_state_not_guarded.1 [] "cr_9".data "approved" none 0 rfl,
   C1_update_state_not_guarded.2
     [(cand1.id, ⟨cand1, "expired", 0, none, some 5, false, none⟩)]
     cand1.id ⟨cand1, "expired", 0, none, some 5, false, none⟩ "approved" none 9 rfl rfl⟩

/-! ## C2 -/

/-- C2: is_duplicate reports a duplicate exactly when a record exists
whose state is past "new", and a submission whose id is such a duplicate
returns the duplicate status and leaves the whole gateway state (store,
buckets, spacing marks) untouched. -/
theorem C2_duplicate_submission :
    (∀ (s : Store) (cid : List Char),
        is_duplicate s cid = true ↔
          ∃ st, get_candidate_state s cid = some st ∧ st.state ≠ "new") ∧
    (∀ (g : GatewayState) (c : Candidate) (cfg : SubmitConfig) (now : Time)
        (wa_target imsg_target wa_send_ok imsg_send_ok : Bool),
        is_duplicate g.store c.id = true →
        receive_candidate g c cfg now wa_target imsg_target wa_send_ok imsg_send_ok
          = (⟨"duplicate", c.id, []⟩, g)) := by
  constructor
  · intro s cid
    cases h : get_candidate_state s cid with
    | none => simp [is_duplicate, h]
    | some st => simp [is_duplicate, h, bne_iff_ne]
  · intro g c cfg now wt it wok iok h
    simp [receive_candidate, h]

/-- C2 witness: the theorem applied to a store holding a prompted record
for the resubmitted id. -/
theorem C2_witness :
    is_duplicate [(cand1.id, ⟨cand1, "prompted", 0, some 0, none, false, none⟩)] cand1.id
      = true ∧
    receive_candidate
        ⟨[(cand1.id, ⟨cand1, "prompted", 0, some 0, none, false, none⟩)], [], []⟩
        cand1 ⟨5, 1, 5, 1, 20⟩ 3 true true true true
      = (⟨"duplicate", cand1.id, []⟩,
         ⟨[(cand1.id, ⟨cand1, "prompted", 0, some 0, none, false, none⟩)], [], []⟩) :=
  ⟨(C2_duplicate_submission.1 _ _).mpr
      ⟨⟨cand1, "prompted", 0, some 0, none, false, none⟩, rfl, by decide⟩,
   C2_duplicate_submission.2
      ⟨[(cand1.id, ⟨cand1, "prompted", 0, some 0, none, false, none⟩)], [], []⟩
      cand1 ⟨5, 1, 5, 1, 20⟩ 3 true true true true (by decide)⟩

/-! ## C3 -/

/-- C3: resolving a registered unresolved wait-handle succeeds
(status ok) and stores that decision; a second resolve for the same id is
acknowledged ignored and changes nothing, so the waiter observes the
first decision only; resolving an unknown id, or a handle already
resolved, is a silent no-op returning ignored. -/
theorem C3_rendezvous_exactly_once :
    (∀ (p : Pending) (a b : Decision), alistGet p a.id = some none → b.id = a.id →
        (receive_decision p a).1 = "ok" ∧
        receive_decision (receive_decision p a).2 b = ("ignored", (receive_decision p a).2) ∧
        (∀ tb : Bool, wait_observe (receive_decision p a).2 a.id tb = some a) ∧
        (∀ tb : Bool,
          wait_observe (receive_decision (receive_decision p a).2 b).2 a.id tb = some a)) ∧
    (∀ (p : Pending) (d : Decision), alistGet p d.id = none →
        receive_decision p d = ("ignored", p)) ∧
    (∀ (p : Pending) (d e : Decision), alistGet p d.id = some (some e) →
        receive_decision p d = ("ignored", p)) := by
  refine ⟨?_, ?_, ?_⟩
  · intro p a b h hb
    have h1 : receive_decision p a = ("ok", alistSet p a.id (some a)) := by
      simp [receive_decision, h]
    have h2 : alistGet (alistSet p a.id (some a)) b.id = some (some a) := by
      rw [hb]; exact alistGet_alistSet_self ..
    refine ⟨by rw [h1], ?_, ?_, ?_⟩
    · rw [h1]
      simp [receive_decision, h2]
    · intro tb
      rw [h1]
      simp [wait_observe, alistGet_alistSet_self]
    · intro tb
      rw [h1]
      simp only [receive_decision, h2]
      simp [wait_observe, alistGet_alistSet_self]
  · intro p d h
    simp [receive_decision, h]
  · intro p d e h
    simp [receive_decision, h]

/-- C3 witness: the theorem applied to one registered handle resolved with
an approval and then a contradictory rejection, and to an unknown id. -/
theorem C3_witness :
    (receive_decision [("cr_1".data, none)]
        ⟨"cr_1".data, "approved", some "hi".data, "whatsapp:+1", 100⟩).1 = "ok" ∧
    wait_observe
        (receive_decision
          (receive_decision [("cr_1".data, none)]
            ⟨"cr_1".data, "approved", some "hi".data, "whatsapp:+1", 100⟩).2
          ⟨"cr_1".data, "rejected", none, "whatsapp:+2", 200⟩).2
        "cr_1".data false
      = some ⟨"cr_1".data, "approved", some "hi".data, "whatsapp:+1", 100⟩ ∧
    receive_decision [] ⟨"cr_1".data, "rejected", none, "whatsapp:+2", 200⟩
      = ("ignored", []) := by
  have h := C3_rendezvous_exactly_once.1 [("cr_1".data, none)]
    ⟨"cr_1".data, "approved", some "hi".data, "whatsapp:+1", 100⟩
    ⟨"cr_1".data, "rejected", none, "whatsapp:+2", 200⟩ rfl rfl
  exact ⟨h.1, h.2.2.2 false,
    C3_rendezvous_exactly_once.2.1 [] ⟨"cr_1".data, "rejected", none, "whatsapp:+2", 200⟩ rfl⟩

/-! ## C8 -/

/-- C8: enforce_spacing returns true and records the current time with a
time-to-live of twice the minimum spacing when no (unexpired) mark exists
or when the elapsed time since the mark is at least the minimum; when the
elapsed time is smaller it returns false leaving the mark untouched; in
particular two calls on a fresh key less than the minimum apart yield true
then false with no mutation by the second. -/
theorem C8_spacing_gate :
    (∀ (m : Option SpacingMark) (mi now : ℚ), spacingRead m now = none →
        enforce_spacing m mi now = (true, some ⟨now, now + mi * 2⟩)) ∧
    (∀ (m : Option SpacingMark) (mi now last : ℚ),
        spacingRead m now = some last → mi ≤ now - last →
        enforce_spacing m mi now = (true, some ⟨now, now + mi * 2⟩)) ∧
    (∀ (m : Option SpacingMark) (mi now last : ℚ),
        spacingRead m now = some last → now - last < mi →
        enforce_spacing m mi now = (false, m)) ∧
    (∀ (mi now1 now2 : ℚ), now1 ≤ now2 → now2 - now1 < mi →
        (enforce_spacing none mi now1).1 = true ∧
        enforce_spacing (enforce_spacing none mi now1).2 mi now2
          = (false, (enforce_spacing none mi now1).2)) := by
  refine ⟨?_, ?_, ?_, ?_⟩
  · intro m mi now h
    simp [enforce_spacing, h]
  · intro m mi now last h hle
    simp only [enforce_spacing, h]
    rw [if_neg (not_lt.mpr hle)]
  · intro m mi now last h hlt
    simp only [enforce_spacing, h]
    rw [if_pos hlt]
  · intro mi now1 now2 h12 hlt
    have h1 : enforce_spacing none mi now1 = (true, some ⟨now1, now1 + mi * 2⟩) := by
      simp [enforce_spacing, spacingRead]
    have hexp : now2 < now1 + mi * 2 := by linarith
    have h2 : spacingRead (some ⟨now1, now1 + mi * 2⟩) now2 = some now1 := by
      simp [spacingRead, hexp]
    constructor
    · rw [h1]
    · rw [h1]
      simp only [enforce_spacing, h2]
      rw [if_pos (by linarith : now2 - now1 < mi)]

/-- C8 witness: the theorem applied on a fresh key with a 20-second
minimum spacing and calls 5 seconds apart. -/
theorem C8_witness :
    (enforce_spacing none 20 0).1 = true ∧
    enforce_spacing (enforce_spacing none 20 0).2 20 5
      = (false, (enforce_spacing none 20 0).2) :=
  C8_spacing_gate.2.2.2 20 0 5 (by norm_num) (by norm_num)

/-! ## C9 -/

/-- C9 counterexample: a WhatsApp command for an id with no stored record
is acknowledged with a body whose status field is the string error
(reason Candidate not found), refuting the claim that the caller receives
a non-error acknowledgement for every such handler. -/
theorem C9_counterexample :
    (whatsapp_webhook [] "approve cr_1".data "whatsapp:+1" 0).status = "error" ∧
    (whatsapp_webhook [] "approve cr_1".data "whatsapp:+1" 0).reason
      = some "Candidate not found" := by
  exact ⟨rfl, rfl⟩

/-- C9 (amended): an inbound decision or command for an unknown request id
never creates or mutates state anywhere; the orchestrator decision
endpoint acknowledges it with the non-error status ignored, while the
WhatsApp webhook acknowledges it with a 200 body carrying status error and
reason Candidate not found (dispatching nothing and appending nothing),
and the iMessage webhook falls through to its chat handling without
touching approval records. -/
theorem C9_unknown_id_noop :
    (∀ (p : Pending) (d : Decision), alistGet p d.id = none →
        receive_decision p d = ("ignored", p)) ∧
    (∀ (s : Store) (body : List Char) (fr : String) (now : Time) (cmd : Command),
        parse_whatsapp_command (pyStrip body) = some cmd →
        get_candidate_state s cmd.candidate_id = none →
        whatsapp_webhook s body fr now
          = ⟨"error", some "Candidate not found", none, s, [], []⟩) ∧
    (∀ (s : Store) (body : List Char) (fr : String) (now : Time) (cmd : Command),
        parse_imessage_command (pyStrip body) = some cmd →
        get_candidate_state s cmd.candidate_id = none →
        imessage_webhook_approval s body fr now = none) := by
  refine ⟨?_, ?_, ?_⟩
  · intro p d h
    simp [receive_decision, h]
  · intro s body fr now cmd hparse hget
    simp [whatsapp_webhook, hparse, hget]
  · intro s body fr now cmd hparse hget
    simp [imessage_webhook_approval, hparse, hget]

/-- C9 witness: the amended theorem applied to an empty handle map, an
empty store with a WhatsApp approve command, and an empty store with an
iMessage approve command. -/
theorem C9_witness :
    receive_decision [] ⟨"cr_1".data, "approved", none, "d", 1⟩ = ("ignored", []) ∧
    whatsapp_webhook [] "approve cr_1".data "whatsapp:+1" 0
      = ⟨"error", some "Candidate not found", none, [], [], []⟩ ∧
    imessage_webhook_approval [] "approve cr_1".data "me@example.com" 0 = none :=
  ⟨C9_unknown_id_noop.1 [] ⟨"cr_1".data, "approved", none, "d", 1⟩ rfl,
   C9_unknown_id_noop.2.1 [] "approve cr_1".data "whatsapp:+1" 0
     ⟨"approved", "cr_1".data, none⟩ (by decide) rfl,
   C9_unknown_id_noop.2.2 [] "approve cr_1".data "me@example.com" 0
     ⟨"approved", "cr_1".data, none⟩ (by decide) rfl⟩

/-! ## C10 -/

/-- C10: for an inbound WhatsApp or iMessage command whose candidate
exists but is neither new nor prompted, the webhook returns an error
acknowledgement naming the current state and performs no state update, no
dispatch and no activity append; the guard is enforced at the webhook
layer and not inside the store, whose update_state overwrites even a
terminal record. -/
theorem C10_webhook_terminal_guard :
    (∀ (s : Store) (body : List Char) (fr : String) (now : Time)
        (cmd : Command) (st : CandidateState),
        parse_whatsapp_command (pyStrip body) = some cmd →
        get_candidate_state s cmd.candidate_id = some st →
        st.state ≠ "new" → st.state ≠ "prompted" →
        whatsapp_webhook s body fr now
          = ⟨"error", some ("Candidate already " ++ st.state), none, s, [], []⟩) ∧
    (∀ (s : Store) (body : List Char) (fr : String) (now : Time)
        (cmd : Command) (st : CandidateState),
        parse_imessage_command (pyStrip body) = some cmd →
        get_candidate_state s cmd.candidate_id = some st →
        st.state ≠ "new" → st.state ≠ "prompted" →
        imessage_webhook_approval s body fr now
          = some ⟨"error", some ("Candidate already " ++ st.state), none, s, [], []⟩) ∧
    (∀ (s : Store) (cid : List Char) (st : CandidateState) (ns : String)
        (d : Option String) (now : Time),
        get_candidate_state s cid = some st → st.candidate.id = cid →
        st.state ∈ terminalStates →
        (get_candidate_state (update_state s cid ns d now) cid).map CandidateState.state
          = some ns) := by
  refine ⟨?_, ?_, ?_⟩
  · intro s body fr now cmd st hparse hget h1 h2
    simp only [whatsapp_webhook, hparse, hget]
    rw [if_pos ⟨h1, h2⟩]
  · intro s body fr now cmd st hparse hget h1 h2
    simp only [imessage_webhook_approval, hparse, hget]
    rw [if_pos ⟨h1, h2⟩]
  · intro s cid st ns d now hget hid _hterm
    rw [get_update_state_self s cid st ns d now hget hid]
    simp [updatedRecord_state]

/-- C10 witness: the theorem applied to a store whose record is already
approved, for both channels, and to the store transition on that same
terminal record. -/
theorem C10_witness :
    whatsapp_webhook [(cand1.id, ⟨cand1, "approved", 0, none, some 5, false, some "d"⟩)]
        "approve cr_1".data "whatsapp:+1" 9
      = ⟨"error", some "Candidate already approved", none,
         [(cand1.id, ⟨cand1, "approved", 0, none, some 5, false, some "d"⟩)], [], []⟩ ∧
    imessage_webhook_approval
        [(cand1.id, ⟨cand1, "approved", 0, none, some 5, false, some "d"⟩)]
        "approve cr_1".data "me@example.com" 9
      = some ⟨"error", some "Candidate already approved", none,
          [(cand1.id, ⟨cand1, "approved", 0, none, some 5, false, some "d"⟩)], [], []⟩ ∧
    (get_candidate_state
        (update_state [(cand1.id, ⟨cand1, "approved", 0, none, some 5, false, some "d"⟩)]
          cand1.id "rejected" none 9)
        cand1.id).map CandidateState.state = some "rejected" :=
  ⟨C10_webhook_terminal_guard.1
      [(cand1.id, ⟨cand1, "approved", 0, none, some 5, false, some "d"⟩)]
      "approve cr_1".data "whatsapp:+1" 9 ⟨"approved", "cr_1".data, none⟩
      ⟨cand1, "approved", 0, none, some 5, false, some "d"⟩
      (by decide) rfl (by decide) (by decide),
   C10_webhook_terminal_guard.2.1
      [(cand1.id, ⟨cand1, "approved", 0, none, some 5, false, some "d"⟩)]
      "approve cr_1".data "me@example.com" 9 ⟨"approved", "cr_1".data, none⟩
      ⟨cand1, "approved", 0, none, some 5, false, some "d"⟩
      (by decide) rfl (by decide) (by decide),
   C10_webhook_terminal_guard.2.2
      [(cand1.id, ⟨cand1, "approved", 0, none, some 5, false, some "d"⟩)]
      cand1.id ⟨cand1, "approved", 0, none, some 5, false, some "d"⟩ "rejected" none 9
      rfl rfl (by decide)⟩

/-! ## C4 lemmas -/

theorem bucket_refill_bounds (cap rate : ℚ) (hcap : 0 ≤ cap) (hrate : 0 ≤ rate)
    (b : Option BucketState) (now : Time)
    (hb : ∀ st, b = some st → 0 ≤ st.tokens ∧ st.tokens ≤ cap ∧ st.last_update ≤ now) :
    0 ≤ (bucket_refill b cap rate now).tokens ∧
    (bucket_refill b cap rate now).tokens ≤ cap ∧
    (bucket_refill b cap rate now).last_update = now := by
  cases b with
  | none =>
      refine ⟨?_, ?_, rfl⟩
      · simp [bucket_refill, bucket_get_state, hcap]
      · simp [bucket_refill, bucket_get_state]
  | some st =>
      obtain ⟨h0, h1, h2⟩ := hb st rfl
      refine ⟨?_, ?_, rfl⟩
      · exact le_min hcap
          (add_nonneg h0 (mul_nonneg (sub_nonneg.mpr h2) hrate))
      · exact min_le_left _ _

theorem bucket_take_bounds (cap rate : ℚ) (hcap : 0 ≤ cap) (hrate : 0 ≤ rate)
    (b : Option BucketState) (now : Time)
    (hb : ∀ st, b = some st → 0 ≤ st.tokens ∧ st.tokens ≤ cap ∧ st.last_update ≤ now) :
    0 ≤ (bucket_take b cap rate now 1).2.tokens ∧
    (bucket_take b cap rate now 1).2.tokens ≤ cap ∧
    (bucket_take b cap rate now 1).2.last_update = now := by
  obtain ⟨h0, h1, h2⟩ := bucket_refill_bounds cap rate hcap hrate b now hb
  unfold bucket_take
  by_cases hge : (1 : ℚ) ≤ (bucket_refill b cap rate now).tokens
  · rw [if_pos hge]
    refine ⟨?_, ?_, rfl⟩ <;> dsimp only <;> linarith
  · rw [if_neg hge]
    exact ⟨h0, h1, h2⟩

theorem take_seq_bounds (cap rate : ℚ) (hcap : 0 ≤ cap) (hrate : 0 ≤ rate) :
    ∀ (nows : List Time) (b : Option BucketState),
      nows.Chain' (· ≤ ·) →
      (∀ st, b = some st → 0 ≤ st.tokens ∧ st.tokens ≤ cap ∧
        ∀ t ∈ nows.head?, st.last_update ≤ t) →
      ∀ r ∈ take_seq cap rate nows b, 0 ≤ r.2.tokens ∧ r.2.tokens ≤ cap := by
  intro nows
  induction nows with
  | nil =>
      intro b _ _ r hr
      simp [take_seq] at hr
  | cons t rest ih =>
      intro b hchain hb r hr
      have hb1 : ∀ st, b = some st →
          0 ≤ st.tokens ∧ st.tokens ≤ cap ∧ st.last_update ≤ t := by
        intro st hst
        obtain ⟨x0, x1, x2⟩ := hb st hst
        exact ⟨x0, x1, x2 t (by simp)⟩
      have hstep := bucket_take_bounds cap rate hcap hrate b t hb1
      have hcc := List.chain'_cons'.mp hchain
      simp only [take_seq, List.mem_cons] at hr
      rcases hr with hr | hr
      · rw [hr]
        exact ⟨hstep.1, hstep.2.1⟩
      · refine ih (some (bucket_take b cap rate t 1).2) hcc.2 ?_ r hr
        intro st hst
        injection hst with hst
        refine ⟨hst ▸ hstep.1, hst ▸ hstep.2.1, ?_⟩
        intro t2 ht2
        rw [← hst, hstep.2.2]
        exact hcc.1 t2 ht2

theorem take_seq_zero_refill (cap : ℚ) :
    ∀ (nows : List Time) (m : ℕ) (t : Time), (m : ℚ) ≤ cap →
      (take_seq cap 0 nows (some ⟨(m : ℚ), t⟩)).map Prod.fst
        = List.replicate (min m nows.length) true
            ++ List.replicate (nows.length - m) false := by
  intro nows
  induction nows with
  | nil => intro m t hm; simp [take_seq]
  | cons t2 rest ih =>
      intro m t hm
      have hrefill : bucket_refill (some ⟨(m : ℚ), t⟩) cap 0 t2 = ⟨(m : ℚ), t2⟩ := by
        simp [bucket_refill, bucket_get_state, min_eq_right hm]
      cases m with
      | zero =>
          have htake : bucket_take (some ⟨((0 : ℕ) : ℚ), t⟩) cap 0 t2 1
              = (false, ⟨((0 : ℕ) : ℚ), t2⟩) := by
            simp only [bucket_take, hrefill]
            norm_num
          have ih0 := ih 0 t2 hm
          simp only [take_seq, htake, List.map_cons]
          rw [ih0]
          simp [List.replicate_succ]
      | succ m' =>
          have h1le : (1 : ℚ) ≤ ((m' + 1 : ℕ) : ℚ) := by
            push_cast
            linarith [Nat.cast_nonneg (α := ℚ) m']
          have hsub : ((m' + 1 : ℕ) : ℚ) - 1 = ((m' : ℕ) : ℚ) := by push_cast; ring
          have htake : bucket_take (some ⟨((m' + 1 : ℕ) : ℚ), t⟩) cap 0 t2 1
              = (true, ⟨((m' : ℕ) : ℚ), t2⟩) := by
            simp only [bucket_take, hrefill]
            rw [if_pos h1le, hsub]
          have hm' : ((m' : ℕ) : ℚ) ≤ cap := by
            push_cast at hm ⊢
            linarith
          simp only [take_seq, htake, List.map_cons]
          rw [ih m' t2 hm']
          simp [Nat.succ_min_succ, Nat.succ_sub_succ, List.replicate_succ]

theorem take_seq_none_eq (cap rate : ℚ) (t : Time) (rest : List Time) :
    take_seq cap rate (t :: rest) none = take_seq cap rate (t :: rest) (some ⟨cap, t⟩) :=
  rfl

/-! ## Sweep lemmas -/

/-- Every stored entry is keyed by its own candidate id (the cr:id:state
key layout of the store). -/
abbrev storeConsistent (s : Store) : Prop :=
  ∀ p ∈ s, (Prod.snd p).candidate.id = p.1

/-- The store holds at most one entry per Redis key. -/
abbrev keysNodup (s : Store) : Prop :=
  (s.map Prod.fst).Nodup

theorem mem_due (s : Store) (now : Time) (cid : List Char) (st : CandidateState)
    (hget : get_candidate_state s cid = some st) (hp : st.state = "prompted")
    (hd : (st.candidate.deadline_sec : ℚ) ≤ now - st.created_at) :
    st ∈ get_expired_candidates s now := by
  unfold get_expired_candidates
  refine List.mem_filter.mpr
    ⟨List.mem_map_of_mem Prod.snd (alistGet_mem s cid st hget), ?_⟩
  simp [hp, hd]

theorem due_prompted (s : Store) (now : Time) (st : CandidateState)
    (h : st ∈ get_expired_candidates s now) : st.state = "prompted" := by
  have h2 := (List.mem_filter.mp h).2
  simp at h2
  exact h2.1

theorem due_ids_nodup (s : Store) (now : Time) (hcons : storeConsistent s)
    (hnd : keysNodup s) :
    ((get_expired_candidates s now).map (fun st => st.candidate.id)).Nodup := by
  have h1 : (s.map Prod.snd).map (fun st => st.candidate.id) = s.map Prod.fst := by
    rw [List.map_map]
    exact List.map_congr_left (fun p hp => hcons p hp)
  have h2 : List.Sublist
      ((get_expired_candidates s now).map (fun st => st.candidate.id))
      ((s.map Prod.snd).map (fun st => st.candidate.id)) := by
    unfold get_expired_candidates
    exact (List.filter_sublist _).map _
  rw [h1] at h2
  exact hnd.sublist h2

theorem due_present (s : Store) (now : Time) (hcons : storeConsistent s)
    (hnd : keysNodup s) (st : CandidateState) (h : st ∈ get_expired_candidates s now) :
    get_candidate_state s st.candidate.id = some st := by
  have h2 : st ∈ s.map Prod.snd := (List.filter_sublist _).subset h
  obtain ⟨p, hp, hps⟩ := List.mem_map.mp h2
  have hk : p.1 = st.candidate.id := by rw [← hps]; exact (hcons p hp).symm
  have hpe : (st.candidate.id, st) = p := by rw [← hk, ← hps]
  exact alistGet_of_mem_nodup s _ st hnd (hpe ▸ hp)

theorem update_state_map_fst (s : Store) (cid : List Char) (st : CandidateState)
    (ns : String) (d : Option String) (now : Time)
    (hget : get_candidate_state s cid = some st) (hid : st.candidate.id = cid) :
    (update_state s cid ns d now).map Prod.fst = s.map Prod.fst := by
  rw [update_state_of_get_some s cid st ns d now hget]
  unfold save_candidate_state
  rw [updatedRecord_candidate, hid]
  exact alistSet_map_fst s cid _ (List.mem_map_of_mem Prod.fst (alistGet_mem s cid st hget))

theorem update_state_consistent (s : Store) (cid : List Char) (st : CandidateState)
    (ns : String) (d : Option String) (now : Time)
    (hget : get_candidate_state s cid = some st) (hc : storeConsistent s) :
    storeConsistent (update_state s cid ns d now) := by
  rw [update_state_of_get_some s cid st ns d now hget]
  unfold save_candidate_state
  intro p hp
  rcases mem_alistSet _ _ _ p hp with h | h
  · rw [h]
  · exact hc p h

/-- The sweep for-loop with no failing record: each due record becomes the
updatedRecord under expired, everything else is untouched, the decisions
and activity entries are exactly one per due record in scan order, and the
key set and key consistency of the store are preserved. -/
theorem sweep_nofail (now : Time) :
    ∀ (l : List CandidateState) (s : Store),
      (l.map (fun st => st.candidate.id)).Nodup →
      (∀ x ∈ l, get_candidate_state s x.candidate.id = some x) →
      (sweep_records now (fun _ => false) l s).2.1
          = l.map (fun st => expiryDecision st now) ∧
      (sweep_records now (fun _ => false) l s).2.2.1
          = l.map (fun st => (st.candidate.brand_id, expiryActivity st now)) ∧
      (∀ x ∈ l, get_candidate_state (sweep_records now (fun _ => false) l s).1 x.candidate.id
          = some (updatedRecord x "expired" none now)) ∧
      (∀ cid, cid ∉ l.map (fun st => st.candidate.id) →
          get_candidate_state (sweep_records now (fun _ => false) l s).1 cid
            = get_candidate_state s cid) ∧
      (sweep_records now (fun _ => false) l s).1.map Prod.fst = s.map Prod.fst ∧
      (storeConsistent s → storeConsistent (sweep_records now (fun _ => false) l s).1) := by
  intro l
  induction l with
  | nil =>
      intro s _ _
      exact ⟨rfl, rfl, fun x hx => absurd hx (List.not_mem_nil x),
        fun cid _ => rfl, rfl, fun hc => hc⟩
  | cons st rest ih =>
      intro s hnd hpres
      simp only [List.map_cons, List.nodup_cons] at hnd
      have hgetst : get_candidate_state s st.candidate.id = some st :=
        hpres st (List.mem_cons_self ..)
      have hget1 : get_candidate_state (process_expired s st now).1 st.candidate.id
          = some (updatedRecord st "expired" none now) :=
        get_update_state_self s _ st _ none now hgetst rfl
      have hgetother : ∀ cid, cid ≠ st.candidate.id →
          get_candidate_state (process_expired s st now).1 cid = get_candidate_state s cid :=
        fun cid hne => get_update_state_ne s _ cid st _ none now hgetst rfl hne
      have hpres1 : ∀ x ∈ rest,
          get_candidate_state (process_expired s st now).1 x.candidate.id = some x := by
        intro x hx
        have hne : x.candidate.id ≠ st.candidate.id := by
          intro he
          exact hnd.1 (he ▸ List.mem_map_of_mem _ hx)
        rw [hgetother _ hne]
        exact hpres x (List.mem_cons_of_mem _ hx)
      have hfst1 : (process_expired s st now).1.map Prod.fst = s.map Prod.fst :=
        update_state_map_fst s _ st _ none now hgetst rfl
      have hcons1 : storeConsistent s → storeConsistent (process_expired s st now).1 :=
        fun hc => update_state_consistent s _ st _ none now hgetst hc
      obtain ⟨ihd, iha, ihget, ihother, ihfst, ihcons⟩ :=
        ih (process_expired s st now).1 hnd.2 hpres1
      have hunfold : sweep_records now (fun _ => false) (st :: rest) s
          = ((sweep_records now (fun _ => false) rest (process_expired s st now).1).1,
             (process_expired s st now).2.1
               :: (sweep_records now (fun _ => false) rest (process_expired s st now).1).2.1,
             (process_expired s st now).2.2
               :: (sweep_records now (fun _ => false) rest (process_expired s st now).1).2.2.1,
             (sweep_records now (fun _ => false) rest (process_expired s st now).1).2.2.2) := by
        simp [sweep_records]
      refine ⟨?_, ?_, ?_, ?_, ?_, ?_⟩
      · rw [hunfold]
        simp only [List.map_cons, ihd]
        rfl
      · rw [hunfold]
        simp only [List.map_cons, iha]
        rfl
      · intro x hx
        rw [hunfold]
        rcases List.mem_cons.mp hx with hx | hx
        · subst hx
          rw [ihother x.candidate.id hnd.1]
          exact hget1
        · exact ihget x hx
      · intro cid hcid
        simp only [List.map_cons, List.mem_cons, not_or] at hcid
        rw [hunfold]
        rw [ihother cid (by simpa using hcid.2)]
        exact hgetother cid hcid.1
      · rw [hunfold]
        dsimp only
        rw [ihfst, hfst1]
      · intro hc
        rw [hunfold]
        exact ihcons (hcons1 hc)

/-- The sweep for-loop with an exception oracle: an exception while one
record is processed abandons the rest of the pass, so the effects are
exactly those of a failure-free sweep over the longest failure-free
scan-order prefix, and the exception reaches the surrounding except
handler exactly when some record raises. -/
theorem sweep_fails_eq (now : Time) (fails : CandidateState → Bool) :
    ∀ (l : List CandidateState) (s : Store),
      sweep_records now fails l s
        = ((sweep_records now (fun _ => false) (l.takeWhile fun st => !fails st) s).1,
           (l.takeWhile fun st => !fails st).map (fun st => expiryDecision st now),
           (l.takeWhile fun st => !fails st).map
             (fun st => (st.candidate.brand_id, expiryActivity st now)),
           l.any fails) := by
  intro l
  induction l with
  | nil => intro s; simp [sweep_records]
  | cons st rest ih =>
      intro s
      by_cases hf : fails st
      · simp [sweep_records, hf, List.takeWhile_cons]
      · simp only [sweep_records, hf, Bool.false_eq_true, if_false, List.takeWhile_cons,
          Bool.not_false, if_true, List.any_cons, Bool.false_or, ih]
        rfl

theorem takeWhile_const_true {α : Type} (l : List α) : l.takeWhile (fun _ => true) = l := by
  induction l with
  | nil => rfl
  | cons a l ih => simp [List.takeWhile_cons, ih]

theorem pass_decisions (s : Store) (now : Time) (fails : CandidateState → Bool) :
    (check_timeouts_pass s now fails).2.1
      = ((get_expired_candidates s now).takeWhile (fun st => !fails st)).map
          (fun st => expiryDecision st now) := by
  rw [check_timeouts_pass, sweep_fails_eq]

/-- What one pass does to the record stored at cid: expired if it belongs
to the processed prefix of the scan, untouched otherwise. -/
theorem pass_get (s : Store) (now : Time) (fails : CandidateState → Bool)
    (hcons : storeConsistent s) (hnd : keysNodup s)
    (cid : List Char) (st : CandidateState)
    (hget : get_candidate_state s cid = some st) :
    get_candidate_state (check_timeouts_pass s now fails).1 cid
      = if st ∈ (get_expired_candidates s now).takeWhile (fun x => !fails x)
        then some (updatedRecord st "expired" none now) else some st := by
  have hsub : List.Sublist
      ((get_expired_candidates s now).takeWhile (fun x => !fails x))
      (get_expired_candidates s now) := List.takeWhile_sublist _
  have hnd_pre : (((get_expired_candidates s now).takeWhile (fun x => !fails x)).map
      (fun st => st.candidate.id)).Nodup :=
    (due_ids_nodup s now hcons hnd).sublist (hsub.map _)
  have hpres_pre : ∀ x ∈ (get_expired_candidates s now).takeWhile (fun x => !fails x),
      get_candidate_state s x.candidate.id = some x :=
    fun x hx => due_present s now hcons hnd x (hsub.subset hx)
  have hsweep := sweep_nofail now _ s hnd_pre hpres_pre
  have hpass1 : (check_timeouts_pass s now fails).1
      = (sweep_records now (fun _ => false)
          ((get_expired_candidates s now).takeWhile (fun x => !fails x)) s).1 := by
    rw [check_timeouts_pass, sweep_fails_eq]
  rw [hpass1]
  have hid : st.candidate.id = cid := hcons _ (alistGet_mem s cid st hget)
  by_cases hmem : st ∈ (get_expired_candidates s now).takeWhile (fun x => !fails x)
  · rw [if_pos hmem]
    have h := hsweep.2.2.1 st hmem
    rwa [hid] at h
  · rw [if_neg hmem]
    have hnid : cid ∉ ((get_expired_candidates s now).takeWhile (fun x => !fails x)).map
        (fun st => st.candidate.id) := by
      intro hc
      obtain ⟨y, hy, hyid⟩ := List.mem_map.mp hc
      have hgy := due_present s now hcons hnd y (hsub.subset hy)
      rw [hyid, hget] at hgy
      exact hmem ((Option.some.inj hgy) ▸ hy)
    rw [hsweep.2.2.2.1 cid hnid, hget]

theorem pass_preserves (s : Store) (now : Time) (fails : CandidateState → Bool)
    (hcons : storeConsistent s) (hnd : keysNodup s) :
    (check_timeouts_pass s now fails).1.map Prod.fst = s.map Prod.fst ∧
    storeConsistent (check_timeouts_pass s now fails).1 := by
  have hsub : List.Sublist
      ((get_expired_candidates s now).takeWhile (fun x => !fails x))
      (get_expired_candidates s now) := List.takeWhile_sublist _
  have hnd_pre : (((get_expired_candidates s now).takeWhile (fun x => !fails x)).map
      (fun st => st.candidate.id)).Nodup :=
    (due_ids_nodup s now hcons hnd).sublist (hsub.map _)
  have hpres_pre : ∀ x ∈ (get_expired_candidates s now).takeWhile (fun x => !fails x),
      get_candidate_state s x.candidate.id = some x :=
    fun x hx => due_present s now hcons hnd x (hsub.subset hx)
  have hsweep := sweep_nofail now _ s hnd_pre hpres_pre
  have hpass1 : (check_timeouts_pass s now fails).1
      = (sweep_records now (fun _ => false)
          ((get_expired_candidates s now).takeWhile (fun x => !fails x)) s).1 := by
    rw [check_timeouts_pass, sweep_fails_eq]
  rw [hpass1]
  exact ⟨hsweep.2.2.2.2.1, hsweep.2.2.2.2.2 hcons⟩

theorem countP_id_eq_one {α β : Type} [DecidableEq β] (l : List α) (f : α → β) (b : β)
    (hnd : (l.map f).Nodup) (x : α) (hx : x ∈ l) (hfx : f x = b) :
    l.countP (fun y => decide (f y = b)) = 1 := by
  induction l with
  | nil => simp at hx
  | cons a rest ih =>
      simp only [List.map_cons, List.nodup_cons] at hnd
      rw [List.countP_cons]
      rcases List.mem_cons.mp hx with hxa | hxa
      · subst hxa
        have hcount0 : rest.countP (fun y => decide (f y = b)) = 0 := by
          rw [List.countP_eq_zero]
          intro y hy
          simp only [decide_eq_true_eq]
          intro he
          exact hnd.1 (by rw [hfx, ← he]; exact List.mem_map_of_mem f hy)
        simp [hfx, hcount0]
      · have hne : ¬ f a = b := by
          intro he
          refine hnd.1 ?_
          rw [he, ← hfx]
          exact List.mem_map_of_mem f hxa
        simp [hne, ih hnd.2 hxa]

/-! ## C4 -/

/-- C4: for every sequence of sequential single-token take calls on one
bucket (nondecreasing clock, nonnegative capacity and refill rate,
starting uninitialized), the stored token count after each call lies
within zero and capacity; and on a fresh bucket of natural capacity C with
refill rate zero, the first C take(1) calls return true and the next one
returns false. -/
theorem C4_token_bucket :
    (∀ (cap rate : ℚ), 0 ≤ cap → 0 ≤ rate →
        ∀ (nows : List Time), nows.Chain' (· ≤ ·) →
        ∀ r ∈ take_seq cap rate nows none, 0 ≤ r.2.tokens ∧ r.2.tokens ≤ cap) ∧
    (∀ (C : ℕ) (nows : List Time), nows.length = C + 1 →
        (take_seq ((C : ℕ) : ℚ) 0 nows none).map Prod.fst
          = List.replicate C true ++ [false]) := by
  constructor
  · intro cap rate hcap hrate nows hchain
    exact take_seq_bounds cap rate hcap hrate nows none hchain (by intro st hst; cases hst)
  · intro C nows hlen
    cases nows with
    | nil => simp at hlen
    | cons t rest =>
        rw [take_seq_none_eq]
        rw [take_seq_zero_refill ((C : ℕ) : ℚ) (t :: rest) C t le_rfl]
        have hr : rest.length = C := by simpa using hlen
        rw [List.length_cons, hr]
        have h1 : min C (C + 1) = C := by omega
        have h2 : C + 1 - C = 1 := by omega
        rw [h1, h2]
        rfl

/-- C4 witness: the theorem applied to a bucket of capacity 2, once with
refill rate 1 at clock 0, 1, 2 (the state after the first call holds one
token), and once with refill rate 0, where the calls return
true, true, false. -/
theorem C4_witness :
    (0 ≤ (BucketState.mk 1 0).tokens ∧ (BucketState.mk 1 0).tokens ≤ 2) ∧
    (take_seq ((2 : ℕ) : ℚ) 0 [0, 1, 2] none).map Prod.fst
      = List.replicate 2 true ++ [false] :=
  ⟨C4_token_bucket.1 2 1 (by norm_num) (by norm_num) [0, 1, 2]
      (by norm_num [List.chain'_cons]) (true, ⟨1, 0⟩)
      (by
        have h : take_seq 2 1 [0, 1, 2] none
            = [(true, ⟨1, 0⟩), (true, ⟨1, 1⟩), (true, ⟨1, 2⟩)] := by
          norm_num [take_seq, bucket_take, bucket_refill, bucket_get_state, min_def]
        rw [h]
        simp),
   C4_token_bucket.2 2 [0, 1, 2] rfl⟩

/-! ## C5 -/

/-- C5 counterexample: the sweeper marks a due record expired via
update_state with no decider argument, so after the pass the stored
records decider field is still none rather than system:timeout, refuting
the claim that the stored record is transitioned with decider
system:timeout. -/
theorem C5_counterexample :
    (get_candidate_state
        (check_timeouts_pass
          [(cand1.id, ⟨cand1, "prompted", 0, some 0, none, false, none⟩)]
          1000 (fun _ => false)).1
        cand1.id).map CandidateState.decider = some none := by
  have hdue : get_expired_candidates
      [(cand1.id, ⟨cand1, "prompted", 0, some 0, none, false, none⟩)] 1000
      = [⟨cand1, "prompted", 0, some 0, none, false, none⟩] := by
    norm_num [get_expired_candidates, cand1]
  have hpass : (check_timeouts_pass
      [(cand1.id, ⟨cand1, "prompted", 0, some 0, none, false, none⟩)]
      1000 (fun _ => false)).1
      = update_state [(cand1.id, ⟨cand1, "prompted", 0, some 0, none, false, none⟩)]
          cand1.id "expired" none 1000 := by
    rw [check_timeouts_pass, hdue]
    simp [sweep_records, process_expired]
  rw [hpass]
  rw [get_update_state_self
      [(cand1.id, ⟨cand1, "prompted", 0, some 0, none, false, none⟩)]
      cand1.id ⟨cand1, "prompted", 0, some 0, none, false, none⟩
      "expired" none 1000 rfl rfl]
  rw [updatedRecord_expired_none]
  rfl

/-- C5 (amended): for every record the sweep scan reports due (prompted
and past its deadline), one failure-free pass transitions the stored
record to expired stamping decided_at while leaving the stored decider
field unchanged (update_state is called without a decider), dispatches
exactly one Decision for that record, and that Decision carries decision
expired and decider system:timeout, and appends exactly one ActivityEntry
for the records brand. -/
theorem C5_sweep_expiry (s : Store) (now : Time) (cid : List Char) (st : CandidateState)
    (hcons : storeConsistent s) (hnd : keysNodup s)
    (hget : get_candidate_state s cid = some st)
    (hp : st.state = "prompted")
    (hd : (st.candidate.deadline_sec : ℚ) ≤ now - st.created_at) :
    get_candidate_state (check_timeouts_pass s now (fun _ => false)).1 cid
        = some { st with state := "expired", decided_at := some now } ∧
    (check_timeouts_pass s now (fun _ => false)).2.1.countP
        (fun d => decide (d.id = cid)) = 1 ∧
    expiryDecision st now ∈ (check_timeouts_pass s now (fun _ => false)).2.1 ∧
    (expiryDecision st now).decision = "expired" ∧
    (expiryDecision st now).decider = "system:timeout" ∧
    (check_timeouts_pass s now (fun _ => false)).2.2.1.countP
        (fun a => decide (a.2.id = cid)) = 1 ∧
    (st.candidate.brand_id, expiryActivity st now)
        ∈ (check_timeouts_pass s now (fun _ => false)).2.2.1 := by
  have hid : st.candidate.id = cid := hcons _ (alistGet_mem s cid st hget)
  have hmem : st ∈ get_expired_candidates s now := mem_due s now cid st hget hp hd
  have hnodup := due_ids_nodup s now hcons hnd
  have hpres : ∀ x ∈ get_expired_candidates s now,
      get_candidate_state s x.candidate.id = some x :=
    fun x hx => due_present s now hcons hnd x hx
  have hsweep := sweep_nofail now (get_expired_candidates s now) s hnodup hpres
  have hpasseq : check_timeouts_pass s now (fun _ => false)
      = sweep_records now (fun _ => false) (get_expired_candidates s now) s := rfl
  refine ⟨?_, ?_, ?_, rfl, rfl, ?_, ?_⟩
  · rw [hpasseq]
    have h := hsweep.2.2.1 st hmem
    rw [hid] at h
    rw [h, updatedRecord_expired_none]
  · rw [hpasseq, hsweep.1]
    have hnd2 : (((get_expired_candidates s now).map
        (fun st => expiryDecision st now)).map (fun d => d.id)).Nodup := by
      rw [List.map_map]
      exact hnodup
    exact countP_id_eq_one _ (fun d => d.id) cid hnd2 (expiryDecision st now)
      (List.mem_map_of_mem (fun st => expiryDecision st now) hmem) hid
  · rw [hpasseq, hsweep.1]
    exact List.mem_map_of_mem (fun st => expiryDecision st now) hmem
  · rw [hpasseq, hsweep.2.1]
    have hnd2 : (((get_expired_candidates s now).map
        (fun st => (st.candidate.brand_id, expiryActivity st now))).map
        (fun a => a.2.id)).Nodup := by
      rw [List.map_map]
      exact hnodup
    exact countP_id_eq_one _ (fun a => a.2.id) cid hnd2
      (st.candidate.brand_id, expiryActivity st now)
      (List.mem_map_of_mem (fun st => (st.candidate.brand_id, expiryActivity st now)) hmem)
      hid
  · rw [hpasseq, hsweep.2.1]
    exact List.mem_map_of_mem (fun st => (st.candidate.brand_id, expiryActivity st now)) hmem

/-- C5 witness: the amended theorem applied to a store holding one
prompted record created at time 0 with a 900-second deadline, swept at
time 1000. -/
theorem C5_witness :
    get_candidate_state
        (check_timeouts_pass
          [(cand1.id, ⟨cand1, "prompted", 0, some 0, none, false, none⟩)]
          1000 (fun _ => false)).1
        cand1.id
      = some ⟨cand1, "expired", 0, some 0, some 1000, false, none⟩ ∧
    (check_timeouts_pass
        [(cand1.id, ⟨cand1, "prompted", 0, some 0, none, false, none⟩)]
        1000 (fun _ => false)).2.1.countP (fun d => decide (d.id = cand1.id)) = 1 :=
  have h := C5_sweep_expiry
    [(cand1.id, ⟨cand1, "prompted", 0, some 0, none, false, none⟩)] 1000 cand1.id
    ⟨cand1, "prompted", 0, some 0, none, false, none⟩
    (by decide) (by decide) rfl rfl (by norm_num [cand1])
  ⟨h.1, h.2.1⟩

/-! ## C6 -/

/-- C6 counterexample: two records of one store are both due in the same
pass; processing the first raises (the fails oracle), and the pass then
dispatches nothing and leaves the second due record still prompted, so
the other due record of the pass is not processed, refuting the claim;
the exception flag records that the failure escaped to the loops except
handler. -/
theorem C6_counterexample :
    (⟨cand2, "prompted", 0, some 0, none, false, none⟩ : CandidateState)
        ∈ get_expired_candidates
            [(cand1.id, ⟨cand1, "prompted", 0, some 0, none, false, none⟩),
             (cand2.id, ⟨cand2, "prompted", 0, some 0, none, false, none⟩)] 1000 ∧
    (check_timeouts_pass
        [(cand1.id, ⟨cand1, "prompted", 0, some 0, none, false, none⟩),
         (cand2.id, ⟨cand2, "prompted", 0, some 0, none, false, none⟩)]
        1000 (fun st => st.candidate.id == cand1.id)).2.1 = [] ∧
    (get_candidate_state
        (check_timeouts_pass
          [(cand1.id, ⟨cand1, "prompted", 0, some 0, none, false, none⟩),
           (cand2.id, ⟨cand2, "prompted", 0, some 0, none, false, none⟩)]
          1000 (fun st => st.candidate.id == cand1.id)).1
        cand2.id).map CandidateState.state = some "prompted" ∧
    (check_timeouts_pass
        [(cand1.id, ⟨cand1, "prompted", 0, some 0, none, false, none⟩),
         (cand2.id, ⟨cand2, "prompted", 0, some 0, none, false, none⟩)]
        1000 (fun st => st.candidate.id == cand1.id)).2.2.2 = true := by
  have hdue : get_expired_candidates
      [(cand1.id, ⟨cand1, "prompted", 0, some 0, none, false, none⟩),
       (cand2.id, ⟨cand2, "prompted", 0, some 0, none, false, none⟩)] 1000
      = [⟨cand1, "prompted", 0, some 0, none, false, none⟩,
         ⟨cand2, "prompted", 0, some 0, none, false, none⟩] := by
    norm_num [get_expired_candidates, cand1, cand2]
  have hsweep : check_timeouts_pass
      [(cand1.id, ⟨cand1, "prompted", 0, some 0, none, false, none⟩),
       (cand2.id, ⟨cand2, "prompted", 0, some 0, none, false, none⟩)]
      1000 (fun st => st.candidate.id == cand1.id)
      = ([(cand1.id, ⟨cand1, "prompted", 0, some 0, none, false, none⟩),
          (cand2.id, ⟨cand2, "prompted", 0, some 0, none, false, none⟩)],
         [], [], true) := by
    rw [check_timeouts_pass, hdue]
    simp [sweep_records]
  refine ⟨?_, ?_, ?_, ?_⟩
  · rw [hdue]
    simp
  · rw [hsweep]
  · rw [hsweep]
    rfl
  · rw [hsweep]

/-- C6 (amended): an exception raised while processing one due record
aborts the remainder of that sweep pass: the pass performs exactly the
effects of a failure-free sweep over the longest failure-free prefix of
the scan order, so due records at and after the first raising record get
no transition, no dispatch and no activity entry in that pass; the loop
catches the exception and continues on its 10-second cadence, and a due
record skipped by a failing pass is expired (with a dispatched expired,
system:timeout Decision) by the next pass in which no record raises. -/
theorem C6_sweep_abort_and_recovery :
    (∀ (now : Time) (fails : CandidateState → Bool) (l : List CandidateState) (s : Store),
        sweep_records now fails l s
          = ((sweep_records now (fun _ => false) (l.takeWhile fun st => !fails st) s).1,
             (l.takeWhile fun st => !fails st).map (fun st => expiryDecision st now),
             (l.takeWhile fun st => !fails st).map
               (fun st => (st.candidate.brand_id, expiryActivity st now)),
             l.any fails)) ∧
    (∀ (s : Store) (t0 : Time) (fails : ℕ → CandidateState → Bool),
        storeConsistent s → keysNodup s →
        (∀ x, fails 1 x = false) →
        ∀ (cid : List Char) (st : CandidateState),
          get_candidate_state s cid = some st →
          st.state = "prompted" →
          (st.candidate.deadline_sec : ℚ) ≤ t0 - st.created_at →
          (get_candidate_state (check_timeouts_loop t0 fails 0 2 s).1 cid).map
              CandidateState.state = some "expired" ∧
          ∃ d ∈ (check_timeouts_loop t0 fails 0 2 s).2,
            d.id = cid ∧ d.decision = "expired" ∧ d.decider = "system:timeout") := by
  constructor
  · exact fun now fails l s => sweep_fails_eq now fails l s
  · intro s t0 fails hcons hnd hf1 cid st hget hp hd
    have hid : st.candidate.id = cid := hcons _ (alistGet_mem s cid st hget)
    have hloop : check_timeouts_loop t0 fails 0 2 s
        = ((check_timeouts_pass (check_timeouts_pass s t0 (fails 0)).1
              (t0 + 10) (fails 1)).1,
           (check_timeouts_pass s t0 (fails 0)).2.1
             ++ ((check_timeouts_pass (check_timeouts_pass s t0 (fails 0)).1
                   (t0 + 10) (fails 1)).2.1 ++ [])) := by
      simp only [check_timeouts_loop]
      norm_num
    have hpp := pass_preserves s t0 (fails 0) hcons hnd
    have hcons1 : storeConsistent (check_timeouts_pass s t0 (fails 0)).1 := hpp.2
    have hnd1 : keysNodup (check_timeouts_pass s t0 (fails 0)).1 := by
      unfold keysNodup
      rw [hpp.1]
      exact hnd
    have hpg0 := pass_get s t0 (fails 0) hcons hnd cid st hget
    by_cases hm : st ∈ (get_expired_candidates s t0).takeWhile (fun x => !(fails 0) x)
    · rw [if_pos hm] at hpg0
      have hpg1 := pass_get (check_timeouts_pass s t0 (fails 0)).1 (t0 + 10) (fails 1)
        hcons1 hnd1 cid (updatedRecord st "expired" none t0) hpg0
      have hnotin : updatedRecord st "expired" none t0
          ∉ (get_expired_candidates (check_timeouts_pass s t0 (fails 0)).1
              (t0 + 10)).takeWhile (fun x => !(fails 1) x) := by
        intro hin
        have hdue1 := (List.takeWhile_sublist _).subset hin
        have hps := due_prompted _ (t0 + 10) _ hdue1
        rw [updatedRecord_state] at hps
        exact absurd hps (by decide)
      rw [if_neg hnotin] at hpg1
      constructor
      · rw [hloop]
        dsimp only
        rw [hpg1]
        simp [updatedRecord_state]
      · refine ⟨expiryDecision st t0, ?_, hid, rfl, rfl⟩
        rw [hloop]
        dsimp only
        apply List.mem_append_left
        rw [pass_decisions]
        exact List.mem_map_of_mem (fun st => expiryDecision st t0) hm
    · rw [if_neg hm] at hpg0
      have hpre1 : (get_expired_candidates (check_timeouts_pass s t0 (fails 0)).1
            (t0 + 10)).takeWhile (fun x => !(fails 1) x)
          = get_expired_candidates (check_timeouts_pass s t0 (fails 0)).1 (t0 + 10) := by
        have hfx : (fun x => !(fails 1) x) = (fun _ : CandidateState => true) := by
          funext x
          rw [hf1 x]
          rfl
        rw [hfx, takeWhile_const_true]
      have hm1 : st ∈ get_expired_candidates (check_timeouts_pass s t0 (fails 0)).1
          (t0 + 10) :=
        mem_due _ (t0 + 10) cid st hpg0 hp (by linarith)
      have hpg1 := pass_get (check_timeouts_pass s t0 (fails 0)).1 (t0 + 10) (fails 1)
        hcons1 hnd1 cid st hpg0
      rw [hpre1, if_pos hm1] at hpg1
      constructor
      · rw [hloop]
        dsimp only
        rw [hpg1]
        simp [updatedRecord_state]
      · refine ⟨expiryDecision st (t0 + 10), ?_, hid, rfl, rfl⟩
        rw [hloop]
        dsimp only
        apply List.mem_append_right
        apply List.mem_append_left
        rw [pass_decisions, hpre1]
        exact List.mem_map_of_mem (fun st => expiryDecision st (t0 + 10)) hm1

/-- C6 witness: the recovery half of the theorem applied to a two-record
store where only the first record raises, and only during the first pass:
after two loop ticks the skipped second record is expired. -/
theorem C6_witness :
    (get_candidate_state
        (check_timeouts_loop 1000
          (fun k st => k == 0 && st.candidate.id == cand1.id) 0 2
          [(cand1.id, ⟨cand1, "prompted", 0, some 0, none, false, none⟩),
           (cand2.id, ⟨cand2, "prompted", 0, some 0, none, false, none⟩)]).1
        cand2.id).map CandidateState.state = some "expired" :=
  (C6_sweep_abort_and_recovery.2
    [(cand1.id, ⟨cand1, "prompted", 0, some 0, none, false, none⟩),
     (cand2.id, ⟨cand2, "prompted", 0, some 0, none, false, none⟩)]
    1000 (fun k st => k == 0 && st.candidate.id == cand1.id)
    (by decide) (by decide) (fun _ => rfl)
    cand2.id ⟨cand2, "prompted", 0, some 0, none, false, none⟩
    (by decide) rfl (by norm_num [cand2])).1

/-! ## Parser lemmas -/

theorem pyStartswith_append (p r : List Char) : pyStartswith (p ++ r) p = true := by
  induction p with
  | nil => cases r <;> rfl
  | cons c cs ih => simp [pyStartswith, ih]

theorem pyStartswith_mono (l p q : List Char) (h : pyStartswith l (p ++ q) = true) :
    pyStartswith l p = true := by
  induction p generalizing l with
  | nil => cases l <;> rfl
  | cons c cs ih =>
      cases l with
      | nil => simp [pyStartswith] at h
      | cons d ds =>
          simp only [List.cons_append, pyStartswith, Bool.and_eq_true] at h ⊢
          exact ⟨h.1, ih ds h.2⟩

theorem dropWhile_head_false {p : Char → Bool} : ∀ {l : List Char},
    (∀ x ∈ l.head?, p x = false) → l.dropWhile p = l
  | [], _ => rfl
  | c :: rest, h => by
      have hc : p c = false := h c rfl
      simp [List.dropWhile_cons, hc]

theorem takeWhile_append_all {p : Char → Bool} (l1 l2 : List Char)
    (h : ∀ c ∈ l1, p c = true) :
    (l1 ++ l2).takeWhile p = l1 ++ l2.takeWhile p := by
  induction l1 with
  | nil => rfl
  | cons c cs ih =>
      have hc : p c = true := h c (List.mem_cons_self ..)
      simp [List.takeWhile_cons, hc, ih (fun x hx => h x (List.mem_cons_of_mem _ hx))]

theorem dropWhile_append_all {p : Char → Bool} (l1 l2 : List Char)
    (h : ∀ c ∈ l1, p c = true) :
    (l1 ++ l2).dropWhile p = l2.dropWhile p := by
  induction l1 with
  | nil => rfl
  | cons c cs ih =>
      have hc : p c = true := h c (List.mem_cons_self ..)
      simp [List.dropWhile_cons, hc, ih (fun x hx => h x (List.mem_cons_of_mem _ hx))]

theorem getLast?_append_right (l1 l2 : List Char) (h : l2 ≠ []) :
    (l1 ++ l2).getLast? = l2.getLast? := by
  rw [← List.head?_reverse, ← List.head?_reverse, List.reverse_append]
  cases hrev : l2.reverse with
  | nil => exact absurd (by simpa using hrev) h
  | cons a as => simp

theorem pyStrip_eq_self {l : List Char}
    (h1 : ∀ x ∈ l.head?, isWS x = false)
    (h2 : ∀ x ∈ l.getLast?, isWS x = false) : pyStrip l = l := by
  unfold pyStrip
  rw [dropWhile_head_false h1]
  rw [dropWhile_head_false (by rw [List.head?_reverse]; exact h2)]
  exact List.reverse_reverse l

theorem pyStrip_eq_self_of_all {l : List Char} (h : ∀ c ∈ l, isWS c = false) :
    pyStrip l = l :=
  pyStrip_eq_self
    (fun x hx => h x (List.mem_of_mem_head? hx))
    (fun x hx => h x (List.mem_reverse.mp
      (List.mem_of_mem_head? (by rw [List.head?_reverse]; exact hx))))

theorem pyStrip_cons_ws (c : Char) (l : List Char) (hc : isWS c = true) :
    pyStrip (c :: l) = pyStrip l := by
  unfold pyStrip
  rw [List.dropWhile_cons, if_pos hc]

theorem pyContains_append_cons (l1 : List Char) (c : Char) (l2 : List Char) :
    pyContains (l1 ++ c :: l2) c = true := by
  induction l1 with
  | nil => simp [pyContains]
  | cons a as ih => simp [pyContains, ih]

theorem head?_cond_cons (c : Char) (l : List Char) (hc : isWS c = false) :
    ∀ x ∈ (c :: l).head?, isWS x = false := by
  intro x hx
  rw [List.head?_cons] at hx
  obtain rfl := Option.mem_some_iff.mp hx
  exact hc

theorem getLast?_cond_append (l1 l2 : List Char) (hne : l2 ≠ [])
    (h : ∀ c ∈ l2, isWS c = false) :
    ∀ x ∈ (l1 ++ l2).getLast?, isWS x = false := by
  intro x hx
  rw [getLast?_append_right l1 l2 hne] at hx
  refine h x ?_
  rw [← List.head?_reverse] at hx
  exact List.mem_reverse.mp (List.mem_of_mem_head? hx)

theorem isWS_of_isIdChar {c : Char} (h : isIdChar c = true) : isWS c = false := by
  cases hws : isWS c with
  | false => rfl
  | true =>
      exfalso
      unfold isWS at hws
      simp only [Bool.or_eq_true, beq_iff_eq] at hws
      rcases hws with ((((rfl | rfl) | rfl) | rfl) | rfl) | rfl <;>
        exact absurd h (by decide)

theorem splitMax1_keyword (kw id : List Char) (hkw : kw ≠ [])
    (hkwWS : ∀ c ∈ kw, isWS c = false) (hid : id ≠ [])
    (hidWS : ∀ c ∈ id, isWS c = false) :
    splitMax1 (kw ++ ' ' :: id) = [kw, id] := by
  obtain ⟨c, cs, rfl⟩ : ∃ c cs, kw = c :: cs := by
    cases kw with
    | nil => exact absurd rfl hkw
    | cons c cs => exact ⟨c, cs, rfl⟩
  obtain ⟨d, ds, rfl⟩ : ∃ d ds, id = d :: ds := by
    cases id with
    | nil => exact absurd rfl hid
    | cons d ds => exact ⟨d, ds, rfl⟩
  have hc : isWS c = false := hkwWS c (List.mem_cons_self ..)
  have hd : isWS d = false := hidWS d (List.mem_cons_self ..)
  have hnotws : ∀ x ∈ (c :: cs), (!isWS x) = true := by
    intro x hx
    rw [hkwWS x hx]
    rfl
  have h1 : ((c :: cs) ++ ' ' :: d :: ds).dropWhile isWS = (c :: cs) ++ ' ' :: d :: ds := by
    rw [List.cons_append, List.dropWhile_cons, if_neg (by rw [hc]; exact Bool.false_ne_true)]
  have h2 : ((c :: cs) ++ ' ' :: d :: ds).takeWhile (fun x => !isWS x) = c :: cs := by
    rw [takeWhile_append_all (c :: cs) (' ' :: d :: ds) hnotws]
    rw [List.takeWhile_cons]
    simp [isWS]
  have h3 : (((c :: cs) ++ ' ' :: d :: ds).dropWhile (fun x => !isWS x)).dropWhile isWS
      = d :: ds := by
    rw [dropWhile_append_all (c :: cs) (' ' :: d :: ds) hnotws]
    rw [List.dropWhile_cons]
    simp only [isWS, show ((' ' == ' ' : Bool) || (' ' == '\t') || (' ' == '\n')
      || (' ' == '\r') || (' ' == '\x0b') || (' ' == '\x0c')) = true from rfl,
      Bool.not_true, Bool.false_eq_true, if_false]
    rw [List.dropWhile_cons, if_pos (by rfl)]
    rw [List.dropWhile_cons, if_neg (by rw [hd]; exact Bool.false_ne_true)]
  simp only [splitMax1, h1, h2, h3]
  rfl

theorem whatsapp_approve_spec (id : List Char) (hid : id ≠ [])
    (hWS : ∀ c ∈ id, isWS c = false) :
    parse_whatsapp_command ("approve ".data ++ id) = some ⟨"approved", id, none⟩ := by
  have hstrip : pyStrip ("approve ".data ++ id) = "approve ".data ++ id :=
    pyStrip_eq_self (head?_cond_cons 'a' _ (by decide))
      (getLast?_cond_append _ id hid hWS)
  have hlower : pyLower ("approve ".data ++ id) = "approve ".data ++ pyLower id := by
    unfold pyLower
    rw [List.map_append]
    rw [show List.map Char.toLower "approve ".data = "approve ".data from by decide]
  have hg : pyStartswith (pyLower ("approve ".data ++ id)) "approve ".data = true := by
    rw [hlower]
    exact pyStartswith_append _ _
  have hsp : splitMax1 ("approve ".data ++ id) = ["approve".data, id] :=
    splitMax1_keyword "approve".data id (by decide) (by decide) hid hWS
  simp only [parse_whatsapp_command]
  rw [hstrip, if_pos hg, hsp]
  show some (⟨"approved", pyStrip id, none⟩ : Command) = some ⟨"approved", id, none⟩
  rw [pyStrip_eq_self_of_all hWS]

theorem whatsapp_skip_spec (id : List Char) (hid : id ≠ [])
    (hWS : ∀ c ∈ id, isWS c = false) :
    parse_whatsapp_command ("skip ".data ++ id) = some ⟨"rejected", id, none⟩ := by
  have hstrip : pyStrip ("skip ".data ++ id) = "skip ".data ++ id :=
    pyStrip_eq_self (head?_cond_cons 's' _ (by decide))
      (getLast?_cond_append _ id hid hWS)
  have hlower : pyLower ("skip ".data ++ id) = "skip ".data ++ pyLower id := by
    unfold pyLower
    rw [List.map_append]
    rw [show List.map Char.toLower "skip ".data = "skip ".data from by decide]
  have hg1 : ¬ pyStartswith (pyLower ("skip ".data ++ id)) "approve ".data = true := by
    rw [hlower]
    intro h
    exact Bool.false_ne_true ((rfl :
      pyStartswith ("skip ".data ++ pyLower id) "approve ".data = false).symm.trans h)
  have hg2 : pyStartswith (pyLower ("skip ".data ++ id)) "skip ".data = true := by
    rw [hlower]
    exact pyStartswith_append _ _
  have hsp : splitMax1 ("skip ".data ++ id) = ["skip".data, id] :=
    splitMax1_keyword "skip".data id (by decide) (by decide) hid hWS
  simp only [parse_whatsapp_command]
  rw [hstrip, if_neg hg1, if_pos hg2, hsp]
  show some (⟨"rejected", pyStrip id, none⟩ : Command) = some ⟨"rejected", id, none⟩
  rw [pyStrip_eq_self_of_all hWS]

theorem whatsapp_edit_spec (id txt : List Char) (hid : id ≠ [])
    (hWS : ∀ c ∈ id, isWS c = false) (hcolon : ':' ∉ id)
    (htxt : txt ≠ [])
    (htxth : ∀ x ∈ txt.head?, isWS x = false)
    (htxtl : ∀ x ∈ txt.getLast?, isWS x = false) :
    parse_whatsapp_command ("edit ".data ++ (id ++ (':' :: ' ' :: txt)))
      = some ⟨"edited", id, some (txt.take 200)⟩ := by
  have hinner_ne : id ++ (':' :: ' ' :: txt) ≠ [] := by
    cases id with
    | nil => exact absurd rfl hid
    | cons d ds => simp
  have hlast : ∀ x ∈ ("edit ".data ++ (id ++ (':' :: ' ' :: txt))).getLast?,
      isWS x = false := by
    intro x hx
    rw [getLast?_append_right _ _ hinner_ne] at hx
    rw [getLast?_append_right id _ (by simp)] at hx
    have h3 : (':' :: ' ' :: txt).getLast? = txt.getLast? :=
      getLast?_append_right [':', ' '] txt htxt
    rw [h3] at hx
    exact htxtl x hx
  have hstrip : pyStrip ("edit ".data ++ (id ++ (':' :: ' ' :: txt)))
      = "edit ".data ++ (id ++ (':' :: ' ' :: txt)) :=
    pyStrip_eq_self (head?_cond_cons 'e' _ (by decide)) hlast
  have hlower : pyLower ("edit ".data ++ (id ++ (':' :: ' ' :: txt)))
      = "edit ".data ++ pyLower (id ++ (':' :: ' ' :: txt)) := by
    unfold pyLower
    rw [List.map_append]
    rw [show List.map Char.toLower "edit ".data = "edit ".data from by decide]
  have hg1 : ¬ pyStartswith (pyLower ("edit ".data ++ (id ++ (':' :: ' ' :: txt))))
      "approve ".data = true := by
    rw [hlower]
    intro h
    exact Bool.false_ne_true ((rfl :
      pyStartswith ("edit ".data ++ pyLower (id ++ (':' :: ' ' :: txt)))
        "approve ".data = false).symm.trans h)
  have hg2 : ¬ pyStartswith (pyLower ("edit ".data ++ (id ++ (':' :: ' ' :: txt))))
      "skip ".data = true := by
    rw [hlower]
    intro h
    exact Bool.false_ne_true ((rfl :
      pyStartswith ("edit ".data ++ pyLower (id ++ (':' :: ' ' :: txt)))
        "skip ".data = false).symm.trans h)
  have hg3 : pyStartswith (pyLower ("edit ".data ++ (id ++ (':' :: ' ' :: txt))))
      "edit ".data = true := by
    rw [hlower]
    exact pyStartswith_append _ _
  have hdrop5 : ("edit ".data ++ (id ++ (':' :: ' ' :: txt))).drop 5
      = id ++ (':' :: ' ' :: txt) := rfl
  have hinner_strip : pyStrip (id ++ (':' :: ' ' :: txt)) = id ++ (':' :: ' ' :: txt) := by
    refine pyStrip_eq_self ?_ ?_
    · cases id with
      | nil => exact absurd rfl hid
      | cons d ds =>
          exact head?_cond_cons d _ (hWS d (List.mem_cons_self ..))
    · intro x hx
      rw [getLast?_append_right id _ (by simp)] at hx
      have h3 : (':' :: ' ' :: txt).getLast? = txt.getLast? :=
        getLast?_append_right [':', ' '] txt htxt
      rw [h3] at hx
      exact htxtl x hx
  have hcont : pyContains (id ++ (':' :: ' ' :: txt)) ':' = true :=
    pyContains_append_cons id ':' (' ' :: txt)
  have hnotcolon : ∀ c ∈ id, (c != ':') = true := by
    intro c hc
    exact bne_iff_ne.mpr (fun he => hcolon (he ▸ hc))
  have htake : (id ++ (':' :: ' ' :: txt)).takeWhile (fun c => c != ':') = id := by
    rw [takeWhile_append_all id _ hnotcolon]
    rw [List.takeWhile_cons]
    simp
  have hdropc : (id ++ (':' :: ' ' :: txt)).dropWhile (fun c => c != ':')
      = ':' :: ' ' :: txt := by
    rw [dropWhile_append_all id _ hnotcolon]
    rw [List.dropWhile_cons]
    simp
  have hed : pyStrip ((':' :: ' ' :: txt).drop 1) = txt := by
    show pyStrip (' ' :: txt) = txt
    rw [pyStrip_cons_ws ' ' txt rfl]
    exact pyStrip_eq_self htxth htxtl
  simp only [parse_whatsapp_command]
  rw [hstrip, if_neg hg1, if_neg hg2, if_pos hg3, hdrop5, hinner_strip,
    if_pos hcont, htake, hdropc]
  rw [show ((':' :: ' ' :: txt).drop 1) = ' ' :: txt from rfl]
  rw [show pyStrip (' ' :: txt) = txt from by
    rw [pyStrip_cons_ws ' ' txt rfl]; exact pyStrip_eq_self htxth htxtl]
  rw [pyStrip_eq_self_of_all hWS]

theorem imessage_approve_spec (tail : List Char) (ht : tail ≠ [])
    (hid : ∀ c ∈ tail, isIdChar c = true) :
    parse_imessage_command ("approve cr_".data ++ tail)
      = some ⟨"approved", "cr_".data ++ tail, none⟩ := by
  obtain ⟨e, es, rfl⟩ : ∃ e es, tail = e :: es := by
    cases tail with
    | nil => exact absurd rfl ht
    | cons e es => exact ⟨e, es, rfl⟩
  have hWS : ∀ c ∈ (e :: es), isWS c = false := fun c hc => isWS_of_isIdChar (hid c hc)
  have hstrip : pyStrip ("approve cr_".data ++ (e :: es))
      = "approve cr_".data ++ (e :: es) :=
    pyStrip_eq_self (head?_cond_cons 'a' _ (by decide))
      (getLast?_cond_append _ _ (by simp) hWS)
  have hall : (e :: es).all isIdChar = true := List.all_eq_true.mpr hid
  have hmk : matchKwId "approve".data ("approve cr_".data ++ (e :: es))
      = some ('c' :: 'r' :: '_' :: (e :: es)) := by
    show matchCrId ('c' :: 'r' :: '_' :: (e :: es)) = some ('c' :: 'r' :: '_' :: (e :: es))
    exact if_pos (by rw [hall, show (e :: es).isEmpty = false from rfl]; decide)
  simp only [parse_imessage_command]
  rw [hstrip, hmk]
  rfl

theorem imessage_skip_spec (tail : List Char) (ht : tail ≠ [])
    (hid : ∀ c ∈ tail, isIdChar c = true) :
    parse_imessage_command ("skip cr_".data ++ tail)
      = some ⟨"rejected", "cr_".data ++ tail, none⟩ := by
  obtain ⟨e, es, rfl⟩ : ∃ e es, tail = e :: es := by
    cases tail with
    | nil => exact absurd rfl ht
    | cons e es => exact ⟨e, es, rfl⟩
  have hWS : ∀ c ∈ (e :: es), isWS c = false := fun c hc => isWS_of_isIdChar (hid c hc)
  have hstrip : pyStrip ("skip cr_".data ++ (e :: es))
      = "skip cr_".data ++ (e :: es) :=
    pyStrip_eq_self (head?_cond_cons 's' _ (by decide))
      (getLast?_cond_append _ _ (by simp) hWS)
  have hall : (e :: es).all isIdChar = true := List.all_eq_true.mpr hid
  have hmk0 : matchKwId "approve".data ("skip cr_".data ++ (e :: es)) = none := rfl
  have hmk : matchKwId "skip".data ("skip cr_".data ++ (e :: es))
      = some ('c' :: 'r' :: '_' :: (e :: es)) := by
    show matchCrId ('c' :: 'r' :: '_' :: (e :: es)) = some ('c' :: 'r' :: '_' :: (e :: es))
    exact if_pos (by rw [hall, show (e :: es).isEmpty = false from rfl]; decide)
  simp only [parse_imessage_command]
  rw [hstrip, hmk0, hmk]
  rfl

theorem imessage_edit_spec (tail txt : List Char) (ht : tail ≠ [])
    (hid : ∀ c ∈ tail, isIdChar c = true)
    (htxt : txt ≠ [])
    (htxth : ∀ x ∈ txt.head?, isWS x = false)
    (htxtl : ∀ x ∈ txt.getLast?, isWS x = false) :
    parse_imessage_command ("edit cr_".data ++ (tail ++ (':' :: ' ' :: txt)))
      = some ⟨"edited", "cr_".data ++ tail, some (txt.take 200)⟩ := by
  obtain ⟨e, es, rfl⟩ : ∃ e es, tail = e :: es := by
    cases tail with
    | nil => exact absurd rfl ht
    | cons e es => exact ⟨e, es, rfl⟩
  have hstrip : pyStrip ("edit cr_".data ++ ((e :: es) ++ (':' :: ' ' :: txt)))
      = "edit cr_".data ++ ((e :: es) ++ (':' :: ' ' :: txt)) := by
    refine pyStrip_eq_self (head?_cond_cons 'e' _ (by decide)) ?_
    intro x hx
    rw [getLast?_append_right _ _ (by simp)] at hx
    rw [getLast?_append_right (e :: es) _ (by simp)] at hx
    have h3 : (':' :: ' ' :: txt).getLast? = txt.getLast? :=
      getLast?_append_right [':', ' '] txt htxt
    rw [h3] at hx
    exact htxtl x hx
  have hmk0 : matchKwId "approve".data
      ("edit cr_".data ++ ((e :: es) ++ (':' :: ' ' :: txt))) = none := rfl
  have hmk1 : matchKwId "skip".data
      ("edit cr_".data ++ ((e :: es) ++ (':' :: ' ' :: txt))) = none := rfl
  have htw : ((e :: es) ++ (':' :: ' ' :: txt)).takeWhile isIdChar = e :: es := by
    rw [takeWhile_append_all (e :: es) _ (fun c hc => hid c hc)]
    rw [List.takeWhile_cons]
    rw [if_neg (by decide)]
    exact List.append_nil _
  have hmed : matchEdit ("edit cr_".data ++ ((e :: es) ++ (':' :: ' ' :: txt)))
      = (if (((e :: es) ++ (':' :: ' ' :: txt)).takeWhile isIdChar).isEmpty then none
         else
           match ((e :: es) ++ (':' :: ' ' :: txt)).drop
               (((e :: es) ++ (':' :: ' ' :: txt)).takeWhile isIdChar).length with
           | ':' :: rest2 =>
               if (rest2.dropWhile isWS).isEmpty then none
               else some ('c' :: 'r' :: '_'
                   :: ((e :: es) ++ (':' :: ' ' :: txt)).takeWhile isIdChar,
                 rest2.dropWhile isWS)
           | _ => none) := rfl
  have hdw : txt.dropWhile isWS = txt := dropWhile_head_false htxth
  have hfin : matchEdit ("edit cr_".data ++ ((e :: es) ++ (':' :: ' ' :: txt)))
      = some ('c' :: 'r' :: '_' :: (e :: es), txt) := by
    rw [hmed, htw]
    rw [show ((e :: es).isEmpty) = false from rfl]
    rw [List.drop_left (e :: es) (':' :: ' ' :: txt)]
    show (if ((' ' :: txt).dropWhile isWS).isEmpty then none
          else some ('c' :: 'r' :: '_' :: (e :: es), (' ' :: txt).dropWhile isWS))
        = some ('c' :: 'r' :: '_' :: (e :: es), txt)
    rw [show (' ' :: txt).dropWhile isWS = txt.dropWhile isWS from by
      rw [List.dropWhile_cons]; simp [isWS]]
    rw [hdw]
    cases txt with
    | nil => exact absurd rfl htxt
    | cons f fs => rfl
  simp only [parse_imessage_command]
  rw [hstrip, hmk0, hmk1, hfin]
  show some (⟨"edited", 'c' :: 'r' :: '_' :: (e :: es), some ((pyStrip txt).take 200)⟩
      : Command)
    = some ⟨"edited", "cr_".data ++ (e :: es), some (txt.take 200)⟩
  rw [pyStrip_eq_self htxth htxtl]
  rfl

theorem parsers_no_keyword (s : List Char)
    (h1 : pyStartswith (pyLower (pyStrip s)) "approve".data = false)
    (h2 : pyStartswith (pyLower (pyStrip s)) "skip".data = false)
    (h3 : pyStartswith (pyLower (pyStrip s)) "edit".data = false) :
    parse_whatsapp_command s = none ∧ parse_imessage_command s = none := by
  have ext : ∀ (q : List Char) (c : Char),
      pyStartswith (pyLower (pyStrip s)) q = false →
      ¬ pyStartswith (pyLower (pyStrip s)) (q ++ [c]) = true := by
    intro q c hq hcontra
    have hmono := pyStartswith_mono _ q [c] hcontra
    rw [hq] at hmono
    exact Bool.false_ne_true hmono
  have e1 : ¬ pyStartswith (pyLower (pyStrip s)) "approve ".data = true :=
    ext "approve".data ' ' h1
  have e2 : ¬ pyStartswith (pyLower (pyStrip s)) "skip ".data = true :=
    ext "skip".data ' ' h2
  have e3 : ¬ pyStartswith (pyLower (pyStrip s)) "edit ".data = true :=
    ext "edit".data ' ' h3
  constructor
  · simp only [parse_whatsapp_command]
    rw [if_neg e1, if_neg e2, if_neg e3]
  · have m1 : matchKwId "approve".data (pyStrip s) = none := by
      unfold matchKwId
      rw [if_neg (by rw [h1]; exact Bool.false_ne_true)]
    have m2 : matchKwId "skip".data (pyStrip s) = none := by
      unfold matchKwId
      rw [if_neg (by rw [h2]; exact Bool.false_ne_true)]
    have m3 : matchEdit (pyStrip s) = none := by
      unfold matchEdit
      rw [if_neg (by rw [h3]; exact Bool.false_ne_true)]
    simp only [parse_imessage_command]
    rw [m1, m2, m3]

/-! ## Parser completeness lemmas -/

theorem toNat_Char_ofNat (n : Nat) (h : n.isValidChar) : (Char.ofNat n).toNat = n := by
  rw [Char.ofNat, dif_pos h]
  rfl

theorem toLower_eq_space {c : Char} (h : c.toLower = ' ') : c = ' ' := by
  by_cases hg : c.toNat ≥ 65 ∧ c.toNat ≤ 90
  · exfalso
    rw [Char.toLower, if_pos hg] at h
    have hv : (c.toNat + 32).isValidChar := Or.inl (by omega)
    have h2 := congrArg Char.toNat h
    rw [toNat_Char_ofNat _ hv] at h2
    have h32 : (' ' : Char).toNat = 32 := rfl
    rw [h32] at h2
    omega
  · rw [Char.toLower, if_neg hg] at h
    exact h

theorem toLower_of_isWS {c : Char} (h : isWS c = true) : c.toLower = c := by
  unfold isWS at h
  simp only [Bool.or_eq_true, beq_iff_eq] at h
  rcases h with ((((rfl | rfl) | rfl) | rfl) | rfl) | rfl <;> rfl

theorem isWS_false_of_lower_mem {c : Char} {kw : List Char}
    (hmem : c.toLower ∈ kw) (hkw : ∀ x ∈ kw, isWS x = false) : isWS c = false := by
  cases hws : isWS c with
  | false => rfl
  | true =>
      have hc : c ∈ kw := by rw [← toLower_of_isWS hws]; exact hmem
      rw [hkw c hc] at hws
      exact absurd hws Bool.false_ne_true

theorem head?_dropWhile {α : Type} (p : α → Bool) :
    ∀ (l : List α), ∀ x ∈ (l.dropWhile p).head?, p x = false := by
  intro l
  induction l with
  | nil => intro x hx; simp at hx
  | cons c rest ih =>
      rw [List.dropWhile_cons]
      cases hc : p c with
      | true => rw [if_pos rfl]; exact ih
      | false =>
          rw [if_neg Bool.false_ne_true]
          intro x hx
          rw [List.head?_cons] at hx
          obtain rfl := Option.mem_some_iff.mp hx
          exact hc

theorem dropWhile_append_singleton {α : Type} (p : α → Bool) (c : α) (h : p c = false)
    (ys : List α) : (ys ++ [c]).dropWhile p = ys.dropWhile p ++ [c] := by
  induction ys with
  | nil =>
      simp only [List.nil_append, List.dropWhile_cons, List.dropWhile_nil, h,
        Bool.false_eq_true, if_false]
  | cons a as ih =>
      rw [List.cons_append, List.dropWhile_cons, List.dropWhile_cons]
      cases ha : p a with
      | true => rw [if_pos rfl, if_pos rfl]; exact ih
      | false => rw [if_neg Bool.false_ne_true, if_neg Bool.false_ne_true, List.cons_append]

theorem pyStrip_head (l : List Char) : ∀ x ∈ (pyStrip l).head?, isWS x = false := by
  unfold pyStrip
  cases hA : l.dropWhile isWS with
  | nil => intro x hx; simp at hx
  | cons c cs =>
      have hc : isWS c = false := head?_dropWhile isWS l c (by rw [hA]; rfl)
      rw [List.reverse_cons, dropWhile_append_singleton isWS c hc,
        List.reverse_append, List.reverse_singleton, List.singleton_append,
        List.head?_cons]
      intro x hx
      obtain rfl := Option.mem_some_iff.mp hx
      exact hc

theorem pyStrip_getLast (l : List Char) : ∀ x ∈ (pyStrip l).getLast?, isWS x = false := by
  intro x hx
  unfold pyStrip at hx
  rw [← List.head?_reverse, List.reverse_reverse] at hx
  exact head?_dropWhile isWS _ x hx

theorem exists_getLast_mem (l : List Char) (hl : l ≠ []) :
    ∃ z, l.getLast? = some z ∧ z ∈ l := by
  cases hv : l.reverse with
  | nil => exact absurd (List.reverse_eq_nil_iff.mp hv) hl
  | cons z zs =>
      refine ⟨z, ?_, ?_⟩
      · rw [← List.head?_reverse, hv, List.head?_cons]
      · exact List.mem_reverse.mp (by rw [hv]; exact List.mem_cons_self ..)

theorem isEmpty_append_cons (p : List Char) (c : Char) (q : List Char) :
    (p ++ c :: q).isEmpty = false := by
  cases p <;> rfl

theorem drop_takeWhile_length {α : Type} (p : α → Bool) (l : List α) :
    l.drop (l.takeWhile p).length = l.dropWhile p := by
  have h : l = l.takeWhile p ++ l.dropWhile p := (List.takeWhile_append_dropWhile p l).symm
  calc l.drop (l.takeWhile p).length
      = (l.takeWhile p ++ l.dropWhile p).drop (l.takeWhile p).length := by rw [← h]
    _ = l.dropWhile p := List.drop_left _ _

theorem pyStartswith_lower_decomp : ∀ (p l : List Char),
    pyStartswith (pyLower l) p = true → ∃ pre suf, l = pre ++ suf ∧ pyLower pre = p := by
  intro p
  induction p with
  | nil => intro l _; exact ⟨[], l, rfl, rfl⟩
  | cons q qs ih =>
      intro l h
      cases l with
      | nil => simp [pyLower, pyStartswith] at h
      | cons c cs =>
          rw [show pyLower (c :: cs) = c.toLower :: pyLower cs from rfl] at h
          rw [show pyStartswith (c.toLower :: pyLower cs) (q :: qs)
              = ((c.toLower == q) && pyStartswith (pyLower cs) qs) from rfl] at h
          rw [Bool.and_eq_true] at h
          obtain ⟨pre, suf, rfl, hpre⟩ := ih cs h.2
          refine ⟨c :: pre, suf, rfl, ?_⟩
          rw [show pyLower (c :: pre) = c.toLower :: pyLower pre from rfl, hpre,
            beq_iff_eq.mp h.1]

theorem pyLower_append_singleton : ∀ (kw : List Char) (pre : List Char) (c : Char),
    pyLower pre = kw ++ [c] →
    ∃ pre1 d, pre = pre1 ++ [d] ∧ pyLower pre1 = kw ∧ d.toLower = c := by
  intro kw
  induction kw with
  | nil =>
      intro pre c h
      cases pre with
      | nil => simp [pyLower] at h
      | cons a as =>
          rw [show pyLower (a :: as) = a.toLower :: pyLower as from rfl,
            List.nil_append] at h
          obtain ⟨h1, h2⟩ := List.cons_eq_cons.mp h
          obtain rfl : as = [] := List.map_eq_nil_iff.mp h2
          exact ⟨[], a, rfl, rfl, h1⟩
  | cons k ks ih =>
      intro pre c h
      cases pre with
      | nil => simp [pyLower] at h
      | cons a as =>
          rw [show pyLower (a :: as) = a.toLower :: pyLower as from rfl,
            List.cons_append] at h
          obtain ⟨h1, h2⟩ := List.cons_eq_cons.mp h
          obtain ⟨pre1, d, rfl, hp, hd⟩ := ih as c h2
          refine ⟨a :: pre1, d, rfl, ?_, hd⟩
          rw [show pyLower (a :: pre1) = a.toLower :: pyLower pre1 from rfl, hp, h1]

theorem dropWhile_ne_head (l : List Char) (c : Char) (h : pyContains l c = true) :
    ∃ after, l.dropWhile (fun x => x != c) = c :: after := by
  induction l with
  | nil => simp [pyContains] at h
  | cons a as ih =>
      rw [List.dropWhile_cons]
      by_cases hac : a = c
      · subst hac
        rw [if_neg (by simp)]
        exact ⟨as, rfl⟩
      · rw [if_pos (by simp [hac])]
        apply ih
        rw [show pyContains (a :: as) c = ((a == c) || pyContains as c) from rfl,
          Bool.or_eq_true] at h
        rcases h with h | h
        · exact absurd (beq_iff_eq.mp h) hac
        · exact h

theorem stripped_keyword_split (s : List Char) (kw : List Char)
    (hkw : ∀ c ∈ kw, isWS c = false)
    (hg : pyStartswith (pyLower (pyStrip s)) (kw ++ [' ']) = true) :
    ∃ pre1 sp id, pyStrip s = pre1 ++ (sp ++ id) ∧ pyLower pre1 = kw ∧
      sp ≠ [] ∧ (∀ c ∈ sp, isWS c = true) ∧ id ≠ [] ∧
      (∀ x ∈ id.head?, isWS x = false) ∧ (∀ x ∈ id.getLast?, isWS x = false) ∧
      splitMax1 (pyStrip s) = [pre1, id] := by
  obtain ⟨pre, suf, ht, hpre⟩ := pyStartswith_lower_decomp (kw ++ [' ']) (pyStrip s) hg
  obtain ⟨pre1, d, rfl, hp1, hd⟩ := pyLower_append_singleton kw pre ' ' hpre
  obtain rfl : d = ' ' := toLower_eq_space hd
  have ht' : pyStrip s = pre1 ++ ' ' :: suf := by
    rw [ht, List.append_assoc, List.singleton_append]
  have hpre1ws : ∀ x ∈ pre1, isWS x = false := by
    intro x hx
    exact isWS_false_of_lower_mem (by rw [← hp1]; exact List.mem_map_of_mem Char.toLower hx) hkw
  have hnotws : ∀ x ∈ pre1, (fun c => !isWS c) x = true := by
    intro x hx
    show (!isWS x) = true
    rw [hpre1ws x hx]
    rfl
  have hhead := pyStrip_head s
  have hlast := pyStrip_getLast s
  have hsuf : suf = suf.takeWhile isWS ++ suf.dropWhile isWS :=
    (List.takeWhile_append_dropWhile isWS suf).symm
  have hidne : suf.dropWhile isWS ≠ [] := by
    intro hidnil
    have hallsuf : ∀ a ∈ suf, isWS a = true := List.dropWhile_eq_nil_iff.mp hidnil
    have hallcons : ∀ a ∈ (' ' :: suf), isWS a = true := by
      intro a ha
      rcases List.mem_cons.mp ha with rfl | ha2
      · rfl
      · exact hallsuf a ha2
    obtain ⟨z, hz1, hz2⟩ := exists_getLast_mem (' ' :: suf) (List.cons_ne_nil _ _)
    have hzt : (pyStrip s).getLast? = some z := by
      rw [ht', getLast?_append_right pre1 (' ' :: suf) (List.cons_ne_nil _ _), hz1]
    have hzf := hlast z (by rw [hzt]; rfl)
    rw [hallcons z hz2] at hzf
    exact absurd hzf (by decide)
  refine ⟨pre1, ' ' :: suf.takeWhile isWS, suf.dropWhile isWS, ?_, hp1,
    List.cons_ne_nil _ _, ?_, hidne, ?_, ?_, ?_⟩
  · rw [ht']
    rw [show (' ' :: suf.takeWhile isWS) ++ suf.dropWhile isWS
        = ' ' :: (suf.takeWhile isWS ++ suf.dropWhile isWS) from rfl]
    rw [← hsuf]
  · intro c hc
    rcases List.mem_cons.mp hc with rfl | hc2
    · rfl
    · exact List.mem_takeWhile_imp hc2
  · exact fun x hx => head?_dropWhile isWS suf x hx
  · intro x hx
    refine hlast x ?_
    rw [ht']
    have hassoc : pre1 ++ ' ' :: suf
        = (pre1 ++ ' ' :: suf.takeWhile isWS) ++ suf.dropWhile isWS := by
      rw [List.append_assoc, List.cons_append, ← hsuf]
    rw [hassoc, getLast?_append_right _ (suf.dropWhile isWS) hidne]
    exact hx
  · have h1 : (pyStrip s).dropWhile isWS = pyStrip s := dropWhile_head_false hhead
    have htok : (pyStrip s).takeWhile (fun c => !isWS c) = pre1 := by
      rw [ht', takeWhile_append_all pre1 (' ' :: suf) hnotws]
      rw [List.takeWhile_cons]
      simp only [show (!isWS ' ') = false from rfl, Bool.false_eq_true, if_false,
        List.append_nil]
    have hu : (pyStrip s).dropWhile (fun c => !isWS c) = ' ' :: suf := by
      rw [ht', dropWhile_append_all pre1 (' ' :: suf) hnotws]
      rw [List.dropWhile_cons]
      simp only [show (!isWS ' ') = false from rfl, Bool.false_eq_true, if_false]
    have hrest : ((pyStrip s).dropWhile (fun c => !isWS c)).dropWhile isWS
        = suf.dropWhile isWS := by
      rw [hu, List.dropWhile_cons]
      rw [if_pos (show isWS ' ' = true from rfl)]
    have hne1 : (pyStrip s).isEmpty = false := by
      rw [ht']
      exact isEmpty_append_cons pre1 ' ' suf
    have hne2 : (suf.dropWhile isWS).isEmpty = false := by
      cases hidc : suf.dropWhile isWS with
      | nil => exact absurd hidc hidne
      | cons e es => rfl
    simp only [splitMax1, h1, htok, hrest, hne1, hne2, Bool.false_eq_true, if_false]

/-- Following the spec's WhatsApp command grammar (keyword-id form): the
stripped message is the case-insensitive keyword, a nonempty whitespace
run, and a nonempty remainder, and the command carries that remainder
verbatim as the id. -/
def specKwIdForm (kw : List Char) (s : List Char) (cid : List Char) : Prop :=
  ∃ kw0 sp id, pyStrip s = kw0 ++ (sp ++ id) ∧ pyLower kw0 = kw ∧
    sp ≠ [] ∧ (∀ c ∈ sp, isWS c = true) ∧ id ≠ [] ∧ cid = id

/-- Following the spec's WhatsApp edit grammar: the stripped message is the
case-insensitive keyword edit-space, then a remainder whose stripped form
splits at its first colon into the id part and the text part; the command
carries the stripped id part and the stripped text part capped at 200
characters. -/
def specEditColonForm (s : List Char) (cid : List Char) (txt : List Char) : Prop :=
  ∃ kw0 rest idp after, pyStrip s = kw0 ++ rest ∧ pyLower kw0 = "edit ".data ∧
    pyStrip rest = idp ++ ':' :: after ∧ ':' ∉ idp ∧
    cid = pyStrip idp ∧ txt = (pyStrip after).take 200

theorem parse_whatsapp_some_inversion (s : List Char) (cmd : Command)
    (h : parse_whatsapp_command s = some cmd) :
    (cmd.action = "approved" ∧ cmd.edited_text = none ∧
      specKwIdForm "approve".data s cmd.candidate_id) ∨
    (cmd.action = "rejected" ∧ cmd.edited_text = none ∧
      specKwIdForm "skip".data s cmd.candidate_id) ∨
    (cmd.action = "edited" ∧ ∃ txt, cmd.edited_text = some txt ∧
      specEditColonForm s cmd.candidate_id txt) := by
  simp only [parse_whatsapp_command] at h
  by_cases hg1 : pyStartswith (pyLower (pyStrip s)) "approve ".data = true
  · left
    rw [if_pos hg1] at h
    obtain ⟨pre1, sp, id, ht, hp1, hspne, hspws, hidne, hidh, hidl, hsplit⟩ :=
      stripped_keyword_split s "approve".data (by decide)
        (show pyStartswith (pyLower (pyStrip s)) ("approve".data ++ [' ']) = true from hg1)
    rw [hsplit] at h
    replace h : some (⟨"approved", pyStrip id, none⟩ : Command) = some cmd := h
    obtain rfl := Option.some.inj h
    refine ⟨rfl, rfl, pre1, sp, id, ht, hp1, hspne, hspws, hidne, ?_⟩
    show pyStrip id = id
    exact pyStrip_eq_self hidh hidl
  · rw [if_neg hg1] at h
    by_cases hg2 : pyStartswith (pyLower (pyStrip s)) "skip ".data = true
    · right; left
      rw [if_pos hg2] at h
      obtain ⟨pre1, sp, id, ht, hp1, hspne, hspws, hidne, hidh, hidl, hsplit⟩ :=
        stripped_keyword_split s "skip".data (by decide)
          (show pyStartswith (pyLower (pyStrip s)) ("skip".data ++ [' ']) = true from hg2)
      rw [hsplit] at h
      replace h : some (⟨"rejected", pyStrip id, none⟩ : Command) = some cmd := h
      obtain rfl := Option.some.inj h
      refine ⟨rfl, rfl, pre1, sp, id, ht, hp1, hspne, hspws, hidne, ?_⟩
      show pyStrip id = id
      exact pyStrip_eq_self hidh hidl
    · rw [if_neg hg2] at h
      by_cases hg3 : pyStartswith (pyLower (pyStrip s)) "edit ".data = true
      · right; right
        rw [if_pos hg3] at h
        by_cases hcol : pyContains (pyStrip ((pyStrip s).drop 5)) ':' = true
        · rw [if_pos hcol] at h
          obtain ⟨pre, suf, ht, hpre⟩ :=
            pyStartswith_lower_decomp "edit ".data (pyStrip s) hg3
          have hlen : pre.length = 5 := by
            have hlm := List.length_map pre Char.toLower
            rw [show List.map Char.toLower pre = pyLower pre from rfl, hpre] at hlm
            exact hlm.symm
          have hdrop5 : (pyStrip s).drop 5 = suf := by
            rw [ht, show (5 : Nat) = pre.length from hlen.symm, List.drop_left]
          rw [hdrop5] at h hcol
          obtain ⟨after, hafter⟩ := dropWhile_ne_head (pyStrip suf) ':' hcol
          have hdecomp : pyStrip suf
              = (pyStrip suf).takeWhile (fun x => x != ':') ++ ':' :: after := by
            rw [← hafter]
            exact (List.takeWhile_append_dropWhile _ _).symm
          have hed : ((pyStrip suf).dropWhile (fun c => c != ':')).drop 1 = after := by
            rw [hafter]
            rfl
          rw [hed] at h
          replace h : some (⟨"edited",
              pyStrip ((pyStrip suf).takeWhile (fun c => c != ':')),
              some ((pyStrip after).take 200)⟩ : Command) = some cmd := h
          obtain rfl := Option.some.inj h
          refine ⟨rfl, (pyStrip after).take 200, rfl, pre, suf,
            (pyStrip suf).takeWhile (fun c => c != ':'), after, ht, hpre, hdecomp,
            ?_, rfl, rfl⟩
          intro hmem
          have hbad := List.mem_takeWhile_imp hmem
          simp at hbad
        · rw [if_neg hcol] at h
          exact Option.noConfusion h
      · rw [if_neg hg3] at h
        exact Option.noConfusion h

theorem matchCrId_some (m cid : List Char) (h : matchCrId m = some cid) :
    cid = m ∧ ∃ c r tail, m = c :: r :: '_' :: tail ∧ c.toLower = 'c' ∧ r.toLower = 'r' ∧
      tail ≠ [] ∧ (∀ x ∈ tail, isIdChar x = true) := by
  rcases m with _ | ⟨c, _ | ⟨r, _ | ⟨u, rest⟩⟩⟩
  · exact Option.noConfusion h
  · exact Option.noConfusion h
  · exact Option.noConfusion h
  · simp only [matchCrId] at h
    by_cases hgd : (c.toLower == 'c' && r.toLower == 'r' && u == '_'
        && !rest.isEmpty && rest.all isIdChar) = true
    · rw [if_pos hgd] at h
      obtain rfl := Option.some.inj h
      simp only [Bool.and_eq_true, beq_iff_eq] at hgd
      obtain ⟨⟨⟨⟨hc, hr⟩, hu⟩, hne⟩, hall⟩ := hgd
      subst hu
      refine ⟨rfl, c, r, rest, rfl, hc, hr, ?_, fun x hx => List.all_eq_true.mp hall x hx⟩
      intro h0
      rw [h0] at hne
      exact absurd hne (by decide)
    · rw [if_neg hgd] at h
      exact Option.noConfusion h

theorem matchKwId_some (kw l cid : List Char) (h : matchKwId kw l = some cid) :
    pyStartswith (pyLower l) kw = true ∧
    l.drop kw.length = (l.drop kw.length).takeWhile isWS ++ cid ∧
    (l.drop kw.length).takeWhile isWS ≠ [] ∧
    cid = (l.drop kw.length).dropWhile isWS ∧
    ∃ c r tail, cid = c :: r :: '_' :: tail ∧ c.toLower = 'c' ∧ r.toLower = 'r' ∧
      tail ≠ [] ∧ (∀ x ∈ tail, isIdChar x = true) := by
  simp only [matchKwId] at h
  by_cases hg : pyStartswith (pyLower l) kw = true
  · rw [if_pos hg] at h
    by_cases hws : ((l.drop kw.length).takeWhile isWS).isEmpty = true
    · rw [if_pos hws] at h
      exact Option.noConfusion h
    · rw [if_neg hws] at h
      obtain ⟨hcid, c, r, tail, hshape, hc, hr, hne, hall⟩ := matchCrId_some _ _ h
      refine ⟨hg, ?_, ?_, hcid, c, r, tail, hcid.trans hshape, hc, hr, hne, hall⟩
      · rw [hcid]
        exact (List.takeWhile_append_dropWhile isWS _).symm
      · intro hnil
        rw [hnil] at hws
        exact hws rfl
  · rw [if_neg hg] at h
    exact Option.noConfusion h

theorem matchEdit_some (l cid body : List Char) (h : matchEdit l = some (cid, body)) :
    pyStartswith (pyLower l) "edit".data = true ∧
    (l.drop 4).takeWhile isWS ≠ [] ∧
    ∃ c r tail rest2,
      (l.drop 4).dropWhile isWS = c :: r :: '_' :: (tail ++ ':' :: rest2) ∧
      c.toLower = 'c' ∧ r.toLower = 'r' ∧ tail ≠ [] ∧ (∀ x ∈ tail, isIdChar x = true) ∧
      cid = c :: r :: '_' :: tail ∧ body = rest2.dropWhile isWS ∧ body ≠ [] := by
  simp only [matchEdit] at h
  by_cases hg : pyStartswith (pyLower l) "edit".data = true
  · rw [if_pos hg] at h
    by_cases hws : ((l.drop 4).takeWhile isWS).isEmpty = true
    · rw [if_pos hws] at h
      exact Option.noConfusion h
    · rw [if_neg hws] at h
      have hwsne : (l.drop 4).takeWhile isWS ≠ [] := by
        intro h0
        rw [h0] at hws
        exact hws rfl
      split at h
      · rename_i c r u rest hm
        by_cases hcr : (c.toLower == 'c' && r.toLower == 'r' && u == '_') = true
        · rw [if_pos hcr] at h
          simp only [Bool.and_eq_true, beq_iff_eq] at hcr
          obtain ⟨⟨hc, hr⟩, hu⟩ := hcr
          subst hu
          by_cases hidt : (rest.takeWhile isIdChar).isEmpty = true
          · rw [if_pos hidt] at h
            exact Option.noConfusion h
          · rw [if_neg hidt] at h
            have htne : rest.takeWhile isIdChar ≠ [] := by
              intro h0
              rw [h0] at hidt
              exact hidt rfl
            rw [drop_takeWhile_length isIdChar rest] at h
            split at h
            · rename_i rest2 heq
              by_cases hb : ((rest2.dropWhile isWS)).isEmpty = true
              · rw [if_pos hb] at h
                exact Option.noConfusion h
              · rw [if_neg hb] at h
                have hp := Option.some.inj h
                rw [Prod.mk.injEq] at hp
                obtain ⟨hp1, hp2⟩ := hp
                have hbne : rest2.dropWhile isWS ≠ [] := by
                  intro h0
                  rw [h0] at hb
                  exact hb rfl
                have hrsplit : rest = rest.takeWhile isIdChar ++ ':' :: rest2 := by
                  conv_lhs => rw [← List.takeWhile_append_dropWhile isIdChar rest]
                  rw [heq]
                refine ⟨hg, hwsne, c, r, rest.takeWhile isIdChar, rest2, ?_, hc, hr,
                  htne, fun x hx => List.mem_takeWhile_imp hx, hp1.symm, ?_, ?_⟩
                · rw [hm, ← hrsplit]
                · rw [← hp2]
                · rw [← hp2]
                  exact hbne
            · exact Option.noConfusion h
        · rw [if_neg hcr] at h
          exact Option.noConfusion h
      · exact Option.noConfusion h
  · rw [if_neg hg] at h
    exact Option.noConfusion h

/-- Following the spec's iMessage command grammar (keyword-id form): the
stripped message is the case-insensitive keyword, a nonempty whitespace
run, and an id of the shape cr_ followed by at least one word character,
and the command carries that id verbatim. -/
def specImsgIdForm (kw : List Char) (s : List Char) (cid : List Char) : Prop :=
  ∃ kw0 sp c r tail, pyStrip s = kw0 ++ (sp ++ (c :: r :: '_' :: tail)) ∧
    pyLower kw0 = kw ∧ sp ≠ [] ∧ (∀ x ∈ sp, isWS x = true) ∧
    c.toLower = 'c' ∧ r.toLower = 'r' ∧ tail ≠ [] ∧ (∀ x ∈ tail, isIdChar x = true) ∧
    cid = c :: r :: '_' :: tail

/-- Following the spec's iMessage edit grammar: the stripped message is the
case-insensitive keyword edit, a nonempty whitespace run, an id of the
shape cr_ followed by at least one word character, a colon, and a body that
is nonempty once its leading whitespace is dropped; the command carries the
id verbatim and the stripped body capped at 200 characters. -/
def specImsgEditForm (s : List Char) (cid : List Char) (txt : List Char) : Prop :=
  ∃ kw0 sp c r tail rest2,
    pyStrip s = kw0 ++ (sp ++ (c :: r :: '_' :: (tail ++ ':' :: rest2))) ∧
    pyLower kw0 = "edit".data ∧ sp ≠ [] ∧ (∀ x ∈ sp, isWS x = true) ∧
    c.toLower = 'c' ∧ r.toLower = 'r' ∧ tail ≠ [] ∧ (∀ x ∈ tail, isIdChar x = true) ∧
    cid = c :: r :: '_' :: tail ∧
    rest2.dropWhile isWS ≠ [] ∧ txt = (pyStrip (rest2.dropWhile isWS)).take 200

theorem matchKwId_form (kw : List Char) (s : List Char) (cid : List Char)
    (h : matchKwId kw (pyStrip s) = some cid) : specImsgIdForm kw s cid := by
  obtain ⟨hg, hdec, hspne, _, c, r, tail, hshape, hc, hr, htne, hall⟩ :=
    matchKwId_some kw (pyStrip s) cid h
  obtain ⟨pre, suf, hl, hpre⟩ := pyStartswith_lower_decomp kw (pyStrip s) hg
  have hlen : pre.length = kw.length := by
    have hlm := List.length_map pre Char.toLower
    rw [show List.map Char.toLower pre = pyLower pre from rfl, hpre] at hlm
    exact hlm.symm
  have hsuf : (pyStrip s).drop kw.length = suf := by
    rw [hl, ← hlen, List.drop_left]
  rw [hsuf] at hdec hspne
  obtain ⟨sp, hsp⟩ : ∃ sp, suf.takeWhile isWS = sp := ⟨_, rfl⟩
  rw [hsp] at hdec hspne
  refine ⟨pre, sp, c, r, tail, ?_, hpre, hspne, ?_, hc, hr, htne, hall, hshape⟩
  · rw [hl, hdec, hshape]
  · intro x hx
    rw [← hsp] at hx
    exact List.mem_takeWhile_imp hx

theorem matchEdit_form (s : List Char) (cid body : List Char)
    (h : matchEdit (pyStrip s) = some (cid, body)) :
    specImsgEditForm s cid ((pyStrip body).take 200) ∧ body ≠ [] := by
  obtain ⟨hg, hwsne, c, r, tail, rest2, hshape, hc, hr, htne, hall, hcid, hbody, hbne⟩ :=
    matchEdit_some (pyStrip s) cid body h
  obtain ⟨pre, suf, hl, hpre⟩ := pyStartswith_lower_decomp "edit".data (pyStrip s) hg
  have hlen : pre.length = 4 := by
    have hlm := List.length_map pre Char.toLower
    rw [show List.map Char.toLower pre = pyLower pre from rfl, hpre] at hlm
    exact hlm.symm
  have hsuf : (pyStrip s).drop 4 = suf := by
    rw [hl, show (4 : Nat) = pre.length from hlen.symm, List.drop_left]
  rw [hsuf] at hshape hwsne
  have hsufdec : suf = suf.takeWhile isWS ++ suf.dropWhile isWS :=
    (List.takeWhile_append_dropWhile isWS suf).symm
  obtain ⟨sp, hsp⟩ : ∃ sp, suf.takeWhile isWS = sp := ⟨_, rfl⟩
  rw [hsp] at hsufdec hwsne
  refine ⟨⟨pre, sp, c, r, tail, rest2, ?_, hpre, hwsne, ?_, hc, hr, htne, hall, hcid,
    ?_, ?_⟩, hbne⟩
  · rw [hl, hsufdec, hshape]
  · intro x hx
    rw [← hsp] at hx
    exact List.mem_takeWhile_imp hx
  · rw [← hbody]
    exact hbne
  · rw [hbody]

theorem parse_imessage_some_inversion (s : List Char) (cmd : Command)
    (h : parse_imessage_command s = some cmd) :
    (cmd.action = "approved" ∧ cmd.edited_text = none ∧
      specImsgIdForm "approve".data s cmd.candidate_id) ∨
    (cmd.action = "rejected" ∧ cmd.edited_text = none ∧
      specImsgIdForm "skip".data s cmd.candidate_id) ∨
    (cmd.action = "edited" ∧ ∃ txt, cmd.edited_text = some txt ∧
      specImsgEditForm s cmd.candidate_id txt) := by
  simp only [parse_imessage_command] at h
  cases hm1 : matchKwId "approve".data (pyStrip s) with
  | some cid =>
      rw [hm1] at h
      replace h : some (⟨"approved", cid, none⟩ : Command) = some cmd := h
      obtain rfl := Option.some.inj h
      exact Or.inl ⟨rfl, rfl, matchKwId_form "approve".data s cid hm1⟩
  | none =>
      rw [hm1] at h
      cases hm2 : matchKwId "skip".data (pyStrip s) with
      | some cid =>
          rw [hm2] at h
          replace h : some (⟨"rejected", cid, none⟩ : Command) = some cmd := h
          obtain rfl := Option.some.inj h
          exact Or.inr (Or.inl ⟨rfl, rfl, matchKwId_form "skip".data s cid hm2⟩)
      | none =>
          rw [hm2] at h
          cases hm3 : matchEdit (pyStrip s) with
          | some pr =>
              obtain ⟨cid, body⟩ := pr
              rw [hm3] at h
              replace h : some (⟨"edited", cid, some ((pyStrip body).take 200)⟩ : Command)
                  = some cmd := h
              obtain rfl := Option.some.inj h
              exact Or.inr (Or.inr ⟨rfl, (pyStrip body).take 200, rfl,
                (matchEdit_form s cid body hm3).1⟩)
          | none =>
              rw [hm3] at h
              exact Option.noConfusion h

/-! ## C7 -/

/-- C7: on both channel command normalizers, for ids without whitespace
(WhatsApp) and ids of the regex shape cr_ followed by word characters
(iMessage): approve-id parses to the approved action with no text, skip-id
parses to the rejected action with no text, edit-id-colon-text parses to
the edited action carrying the text, which may span line breaks (the text
hypotheses only constrain its ends) and is truncated to at most 200
characters; commands are case-insensitive (concrete mixed-case inputs
included); a message whose stripped, lowercased form starts with none of
the three keywords parses to none on both channels; conversely, whenever
either normalizer yields any command at all, the stripped input decomposes
into the channel's approve-id, skip-id, or edit-id-colon-text form with the
command's fields read off that decomposition, so any string matching none
of the three forms yields none and is never interpreted as an action; in
particular the keyword-prefixed non-matching inputs bare approve, approved
the budget, skipping lunch, and edit without a colon (checked concretely)
all yield none. -/
theorem C7_command_normalizers :
    (∀ id : List Char, id ≠ [] → (∀ c ∈ id, isWS c = false) →
        parse_whatsapp_command ("approve ".data ++ id) = some ⟨"approved", id, none⟩ ∧
        parse_whatsapp_command ("skip ".data ++ id) = some ⟨"rejected", id, none⟩) ∧
    (∀ id txt : List Char, id ≠ [] → (∀ c ∈ id, isWS c = false) → ':' ∉ id →
        txt ≠ [] → (∀ x ∈ txt.head?, isWS x = false) →
        (∀ x ∈ txt.getLast?, isWS x = false) →
        parse_whatsapp_command ("edit ".data ++ (id ++ (':' :: ' ' :: txt)))
          = some ⟨"edited", id, some (txt.take 200)⟩ ∧
        (txt.take 200).length ≤ 200) ∧
    (∀ tail : List Char, tail ≠ [] → (∀ c ∈ tail, isIdChar c = true) →
        parse_imessage_command ("approve cr_".data ++ tail)
          = some ⟨"approved", "cr_".data ++ tail, none⟩ ∧
        parse_imessage_command ("skip cr_".data ++ tail)
          = some ⟨"rejected", "cr_".data ++ tail, none⟩) ∧
    (∀ tail txt : List Char, tail ≠ [] → (∀ c ∈ tail, isIdChar c = true) →
        txt ≠ [] → (∀ x ∈ txt.head?, isWS x = false) →
        (∀ x ∈ txt.getLast?, isWS x = false) →
        parse_imessage_command ("edit cr_".data ++ (tail ++ (':' :: ' ' :: txt)))
          = some ⟨"edited", "cr_".data ++ tail, some (txt.take 200)⟩ ∧
        (txt.take 200).length ≤ 200) ∧
    (parse_whatsapp_command "SKIP cr_2".data = some ⟨"rejected", "cr_2".data, none⟩ ∧
     parse_imessage_command "SKIP cr_2".data = some ⟨"rejected", "cr_2".data, none⟩ ∧
     parse_whatsapp_command "APPROVE cr_test".data
       = some ⟨"approved", "cr_test".data, none⟩ ∧
     parse_imessage_command "Edit cr_3: Hi".data
       = some ⟨"edited", "cr_3".data, some "Hi".data⟩) ∧
    (∀ s : List Char,
        pyStartswith (pyLower (pyStrip s)) "approve".data = false →
        pyStartswith (pyLower (pyStrip s)) "skip".data = false →
        pyStartswith (pyLower (pyStrip s)) "edit".data = false →
        parse_whatsapp_command s = none ∧ parse_imessage_command s = none) ∧
    (∀ s : List Char, ∀ cmd : Command, parse_whatsapp_command s = some cmd →
        (cmd.action = "approved" ∧ cmd.edited_text = none ∧
          specKwIdForm "approve".data s cmd.candidate_id) ∨
        (cmd.action = "rejected" ∧ cmd.edited_text = none ∧
          specKwIdForm "skip".data s cmd.candidate_id) ∨
        (cmd.action = "edited" ∧ ∃ txt, cmd.edited_text = some txt ∧
          specEditColonForm s cmd.candidate_id txt)) ∧
    (∀ s : List Char, ∀ cmd : Command, parse_imessage_command s = some cmd →
        (cmd.action = "approved" ∧ cmd.edited_text = none ∧
          specImsgIdForm "approve".data s cmd.candidate_id) ∨
        (cmd.action = "rejected" ∧ cmd.edited_text = none ∧
          specImsgIdForm "skip".data s cmd.candidate_id) ∨
        (cmd.action = "edited" ∧ ∃ txt, cmd.edited_text = some txt ∧
          specImsgEditForm s cmd.candidate_id txt)) ∧
    (parse_whatsapp_command "approve".data = none ∧
     parse_imessage_command "approve".data = none ∧
     parse_whatsapp_command "approved the budget".data = none ∧
     parse_imessage_command "approved the budget".data = none ∧
     parse_whatsapp_command "skipping lunch".data = none ∧
     parse_imessage_command "skipping lunch".data = none ∧
     parse_whatsapp_command "edit cr_3".data = none ∧
     parse_imessage_command "edit cr_3".data = none ∧
     parse_imessage_command "approve the budget".data = none ∧
     parse_imessage_command "edit cr_3:".data = none) := by
  refine ⟨?_, ?_, ?_, ?_, ⟨by decide, by decide, by decide, by decide⟩, ?_, ?_, ?_, ?_⟩
  · exact fun id h1 h2 => ⟨whatsapp_approve_spec id h1 h2, whatsapp_skip_spec id h1 h2⟩
  · intro id txt h1 h2 h3 h4 h5 h6
    exact ⟨whatsapp_edit_spec id txt h1 h2 h3 h4 h5 h6,
      by rw [List.length_take]; exact min_le_left _ _⟩
  · exact fun tail h1 h2 => ⟨imessage_approve_spec tail h1 h2, imessage_skip_spec tail h1 h2⟩
  · intro tail txt h1 h2 h3 h4 h5
    exact ⟨imessage_edit_spec tail txt h1 h2 h3 h4 h5,
      by rw [List.length_take]; exact min_le_left _ _⟩
  · exact fun s h1 h2 h3 => parsers_no_keyword s h1 h2 h3
  · exact fun s cmd h => parse_whatsapp_some_inversion s cmd h
  · exact fun s cmd h => parse_imessage_some_inversion s cmd h
  · exact ⟨by decide, by decide, by decide, by decide, by decide, by decide, by decide,
      by decide, by decide, by decide⟩

set_option maxRecDepth 4000 in
/-- C7 witness: the theorem applied to concrete commands, among them an
edit whose 250-character body is truncated to 200 characters, the
unrecognized message banana, and the two form-inversion conjuncts applied
to concrete successful parses on each channel. -/
theorem C7_witness :
    parse_whatsapp_command ("approve ".data ++ "cr_1".data)
      = some ⟨"approved", "cr_1".data, none⟩ ∧
    parse_imessage_command
        ("edit cr_".data ++ ("3".data ++ (':' :: ' ' :: List.replicate 250 'y')))
      = some ⟨"edited", "cr_".data ++ "3".data,
          some ((List.replicate 250 'y').take 200)⟩ ∧
    ((List.replicate 250 'y').take 200).length = 200 ∧
    parse_whatsapp_command "banana".data = none ∧
    parse_imessage_command "banana".data = none ∧
    ((("approved" : String) = "approved" ∧ (none : Option (List Char)) = none ∧
        specKwIdForm "approve".data "approve cr_9".data "cr_9".data) ∨
      (("approved" : String) = "rejected" ∧ (none : Option (List Char)) = none ∧
        specKwIdForm "skip".data "approve cr_9".data "cr_9".data) ∨
      (("approved" : String) = "edited" ∧ ∃ txt, (none : Option (List Char)) = some txt ∧
        specEditColonForm "approve cr_9".data "cr_9".data txt)) ∧
    ((("rejected" : String) = "approved" ∧ (none : Option (List Char)) = none ∧
        specImsgIdForm "approve".data "skip cr_9".data "cr_9".data) ∨
      (("rejected" : String) = "rejected" ∧ (none : Option (List Char)) = none ∧
        specImsgIdForm "skip".data "skip cr_9".data "cr_9".data) ∨
      (("rejected" : String) = "edited" ∧ ∃ txt, (none : Option (List Char)) = some txt ∧
        specImsgEditForm "skip cr_9".data "cr_9".data txt)) :=
  ⟨(C7_command_normalizers.1 "cr_1".data (by decide) (by decide)).1,
   (C7_command_normalizers.2.2.2.1 "3".data (List.replicate 250 'y') (by decide) (by decide)
      (by decide)
      (by intro x hx; obtain rfl := Option.mem_some_iff.mp hx; rfl)
      (by intro x hx;
          rw [show (List.replicate 250 'y').getLast? = some 'y' from rfl] at hx
          obtain rfl := Option.mem_some_iff.mp hx
          rfl)).1,
   by decide,
   (C7_command_normalizers.2.2.2.2.2.1 "banana".data rfl rfl rfl).1,
   (C7_command_normalizers.2.2.2.2.2.1 "banana".data rfl rfl rfl).2,
   C7_command_normalizers.2.2.2.2.2.2.1 "approve cr_9".data
     ⟨"approved", "cr_9".data, none⟩ (by decide),
   C7_command_normalizers.2.2.2.2.2.2.2.1 "skip cr_9".data
     ⟨"rejected", "cr_9".data, none⟩ (by decide)⟩

end Replic
